import Mathlib

/-!
Verification of the ChordsPlayer chord-resolution core.

This file is a shallow embedding, in Lean 4, of the chord-resolution pipeline
of the ChordsPlayer repository:

* `noteUtils.js` — the static fretboard lattice (`NOTES_DATA`), note-name and
  octave extraction, MIDI numbers, and `findAllPossiblePositions`;
* the chord parser module — `CHROMATIC_SCALE`, `NOTE_ALIASES`,
  `CHORD_INTERVALS`, `parseChordName`, `parseChord`, `isSupportedChord`;
* `chordMatcher.js` — `getNoteDegree`;
* `chordOptimizer.js` — the scoring heuristics (`calculateFretRange`,
  `countOpenStrings`, `calculateBarreRequirement`,
  `calculateStandardChordMatch`, `calculateScore`), the degree classifier
  `determineNoteDegrees`, the root-anchor search (`findRootNoteOnOpenString`,
  `findLowestRootNote`), the template builder `buildChordFromRoot`, the
  combinatorial generator (`generateAllCombinations`, `createFullFingering`)
  and the driver `findOptimalFingering`.

Modelling conventions:
* JavaScript numbers used for frets, indices and MIDI values are integers in
  the source and are modelled as `Int`/`Nat`; the score, which mixes the
  half-integer weight 1.5 with the fraction `matches / total`, is modelled
  exactly as a rational (`ℚ`).  No float rounding can be observed at the
  magnitudes the code works with (small dyadic weights times small counts).
* A JS function documented as returning an object "or null" is modelled with
  `Option`; a function that can throw is modelled with `Except`.
* JS string scans (`replace`, `match`) are modelled on `List Char`.
* Definitions marked "spec-side" are NOT translations of the source: they
  transcribe the claim's / spec's wording, to be compared with the
  source-side definitions.
-/

/-- A fretboard position exactly as the JS objects `{string, fret, note}`:
the string name, the fret (−1 means the string is muted), and the note name
carried there (`none` on a muted string). -/
structure Pos where
  string : String
  fret : Int
  note : Option String
deriving DecidableEq

/-- `NOTES_DATA` of `noteUtils.js` (identical copy in `chordMatcher.js`):
for each string, the note-with-octave at frets 0–7, in the object's insertion
order (string 6E first). -/
def NOTES_DATA : List (String × List String) :=
  [("6E", ["E1", "F1", "F#1", "G1", "G#1", "A1", "A#1", "B1"]),
   ("5A", ["A1", "A#1", "B1", "C2", "C#2", "D2", "D#2", "E2"]),
   ("4D", ["D2", "D#2", "E2", "F2", "F#2", "G2", "G#2", "A2"]),
   ("3G", ["G2", "G#2", "A2", "A#2", "B2", "C3", "C#3", "D3"]),
   ("2B", ["B2", "C2", "C#2", "D2", "D#2", "E3", "F3", "F#3"]),
   ("1e", ["E3", "F3", "F#3", "G3", "G#3", "A3", "A#3", "B3"])]

/-- `NOTE_MIDI_NUMBERS` of `noteUtils.js`: pitch-class → semitone offset. -/
def NOTE_MIDI_NUMBERS : List (String × Nat) :=
  [("C", 0), ("C#", 1), ("D", 2), ("D#", 3), ("E", 4), ("F", 5),
   ("F#", 6), ("G", 7), ("G#", 8), ("A", 9), ("A#", 10), ("B", 11)]

/-- `STRINGS_ORDER` of `noteUtils.js`: the six strings, lowest to highest. -/
def STRINGS_ORDER : List String := ["6E", "5A", "4D", "3G", "2B", "1e"]

/-- `extractNoteName` of `noteUtils.js`: `noteWithOctave.replace(/[0-9]/g, '')`
drops every decimal digit. -/
def extractNoteName (noteWithOctave : String) : String :=
  String.mk (noteWithOctave.toList.filter (fun c => !c.isDigit))

/-- `extractOctave` of `noteUtils.js`: `match(/(\d+)/)` takes the first run of
digits and `parseInt` reads it; 0 when there is none. -/
def extractOctave (noteWithOctave : String) : Nat :=
  let run := (noteWithOctave.toList.dropWhile (fun c => !c.isDigit)).takeWhile
    (fun c => c.isDigit)
  run.foldl (fun a c => 10 * a + (c.toNat - 48)) 0

/-- `calculateMidiNumber` of `noteUtils.js`: `(octave + 1) * 12 + noteNumber`.
The source throws on a name missing from `NOTE_MIDI_NUMBERS`; that is
modelled as `none` (every lattice entry has a known name, so the throwing
path is unreachable on the data the module scans). -/
def calculateMidiNumber (noteWithOctave : String) : Option Nat :=
  (NOTE_MIDI_NUMBERS.lookup (extractNoteName noteWithOctave)).map
    (fun noteNumber => (extractOctave noteWithOctave + 1) * 12 + noteNumber)

/-- The note-with-octave the lattice stores at (string, fret):
`NOTES_DATA[string][fret]`, `none` off the table. -/
def nwoAt (s : String) (fret : Nat) : Option String :=
  (NOTES_DATA.lookup s).bind (fun frets => frets.get? fret)

/-- The pitch-class name the lattice assigns to (string, fret). -/
def noteNameAt (s : String) (fret : Nat) : Option String :=
  (nwoAt s fret).map extractNoteName

/-- The lattice flattened in the scan order of the JS loops
(`Object.keys(NOTES_DATA)` insertion order, then frets ascending):
(string, fret, noteWithOctave) triples. -/
def latticeEntries : List (String × Nat × String) :=
  NOTES_DATA.flatMap (fun p => p.2.enum.map (fun q => (p.1, q.1, q.2)))

/-- Every lattice position as a `Pos` (notes taken from the lattice), in scan
order; `findAllPossiblePositions` pushes exactly these, filtered. -/
def latticePositions : List Pos :=
  latticeEntries.map (fun e => ⟨e.1, (e.2.1 : Int), some (extractNoteName e.2.2)⟩)

/-- `findAllPossiblePositions` of `noteUtils.js`, as the lookup function the
returned dictionary denotes: positions for `note`, in scan order (strings in
`NOTES_DATA` order, frets 0–7 ascending); the dictionary has an entry only
for notes of the chord ([] otherwise, as an absent key). -/
def findAllPossiblePositions (chordNotes : List String) (note : String) : List Pos :=
  if chordNotes.contains note then
    latticePositions.filter (fun p => p.note == some note)
  else []

/-- The sharp spelling of a natural note name. -/
def sharp (note : String) : String := note ++ "#"

/-- `CHROMATIC_SCALE` of the parser module (also inlined as `chromaticScale`
in `chordMatcher.js` and `chordOptimizer.js`): the twelve sharp-spelled
pitch-class names from C to B, in semitone order. -/
def CHROMATIC_SCALE : List String :=
  ["C", sharp "C", "D", sharp "D", "E", "F", sharp "F",
   "G", sharp "G", "A", sharp "A", "B"]

/-- `NOTE_ALIASES` of the parser module, complete: the flat-sign (♭) and
lowercase spellings are present in the source even though the root token the
parser extracts (capital A–G plus optional ASCII # or b) can never produce
them. -/
def NOTE_ALIASES : List (String × String) :=
  [("C♭", "B"), ("B#", "C"), ("E#", "F"), ("F♭", "E"),
   ("D♭", "C#"), ("E♭", "D#"), ("G♭", "F#"), ("A♭", "G#"), ("B♭", "A#"),
   ("Db", "C#"), ("Eb", "D#"), ("Gb", "F#"), ("Ab", "G#"), ("Bb", "A#"),
   ("cb", "B"), ("b#", "C"), ("e#", "F"), ("fb", "E"),
   ("db", "C#"), ("eb", "D#"), ("gb", "F#"), ("ab", "G#"), ("bb", "A#")]

/-- `CHORD_INTERVALS` of the parser module: quality suffix → semitone
offsets from the root. -/
def CHORD_INTERVALS : List (String × List Nat) :=
  [("maj", [0, 4, 7]), ("", [0, 4, 7]),
   ("m", [0, 3, 7]), ("min", [0, 3, 7]), ("-", [0, 3, 7]),
   ("dim", [0, 3, 6]), ("°", [0, 3, 6]),
   ("aug", [0, 4, 8]), ("+", [0, 4, 8]),
   ("7", [0, 4, 7, 10]),
   ("maj7", [0, 4, 7, 11]), ("M7", [0, 4, 7, 11]), ("Δ", [0, 4, 7, 11]),
   ("m7", [0, 3, 7, 10]), ("min7", [0, 3, 7, 10]), ("-7", [0, 3, 7, 10]),
   ("sus2", [0, 2, 7]),
   ("sus4", [0, 5, 7]), ("sus", [0, 5, 7]),
   ("add9", [0, 4, 7, 14]), ("2", [0, 4, 7, 14]),
   ("6", [0, 4, 7, 9]), ("maj6", [0, 4, 7, 9]), ("M6", [0, 4, 7, 9])]

/-- `normalizeNote` of the parser module: apply `NOTE_ALIASES` when the name
is a key, otherwise return it unchanged. -/
def normalizeNote (note : String) : String :=
  (NOTE_ALIASES.lookup note).getD note

/-- `indexOf` on a list of strings, as JS `Array.prototype.indexOf`:
the index of the first occurrence, or −1. -/
def indexOfStr : List String → String → Int
  | [], _ => -1
  | x :: xs, s =>
      if x == s then 0
      else if indexOfStr xs s == -1 then -1 else indexOfStr xs s + 1

/-- `getNoteIndex` of the parser module. -/
def getNoteIndex (note : String) : Int :=
  indexOfStr CHROMATIC_SCALE (normalizeNote note)

/-- `getNoteByIndex` of the parser module: `((index % 12) + 12) % 12` with
JS `%` (truncated remainder, `Int.tmod`), then the scale entry. -/
def getNoteByIndex (index : Int) : String :=
  let normalizedIndex := ((index.tmod 12) + 12).tmod 12
  (CHROMATIC_SCALE.get? normalizedIndex.toNat).getD ""

/-- `normalizeChordInput` of the parser module:
`trim().replace(/\s+/g, '')` — together they delete every whitespace
character; modelled over the ASCII whitespace characters (JS `\s` also
covers Unicode spaces, which no chord symbol contains). -/
def normalizeChordInput (chordName : String) : String :=
  String.mk (chordName.toList.filter
    (fun c => !(c == ' ' || c == '\t' || c == '\n' || c == '\r')))

/-- The three distinct errors `parseChord` can throw: "Неверный формат
аккорда" from `parseChordName` when the regex `^([A-G][#b]?)(.*)$` does not
match, "Неподдерживаемый тип аккорда" when the quality suffix has no
`CHORD_INTERVALS` entry, and "Неизвестная нота" when the normalized root is
not in the chromatic scale. -/
inductive ParseError where
  | invalidFormat
  | unsupportedType
  | unknownNote
deriving DecidableEq

/-- `parseChordName` of the parser module: normalize the input, match
`^([A-G][#b]?)(.*)$` (greedy optional accidental), normalize the root,
return (root, type); throw the format error when the match fails (that is,
when the input is empty or does not start with a capital A–G). -/
def parseChordName (chordName : String) : Except ParseError (String × String) :=
  match (normalizeChordInput chordName).toList with
  | [] => .error .invalidFormat
  | c :: rest =>
      if 'A' ≤ c ∧ c ≤ 'G' then
        match rest with
        | c2 :: rest2 =>
            if c2 == '#' || c2 == 'b' then
              .ok (normalizeNote (String.mk [c, c2]), String.mk rest2)
            else .ok (normalizeNote (String.mk [c]), String.mk rest)
        | [] => .ok (normalizeNote (String.mk [c]), "")
      else .error .invalidFormat

/-- `parseChord` of the parser module: split the symbol, check the quality
against `CHORD_INTERVALS`, look the (already normalized) root up in the
scale, then map each interval through `getNoteByIndex`. -/
def parseChord (chordName : String) : Except ParseError (List String) :=
  match parseChordName chordName with
  | .error e => .error e
  | .ok (root, ty) =>
      match CHORD_INTERVALS.lookup ty with
      | none => .error .unsupportedType
      | some intervals =>
          if getNoteIndex root == -1 then .error .unknownNote
          else .ok (intervals.map
            (fun (interval : Nat) => getNoteByIndex (getNoteIndex root + (interval : Int))))

/-- `isSupportedChord` of the parser module: `parseChordName` succeeds and
the type has a `CHORD_INTERVALS` entry (errors caught, returning false). -/
def isSupportedChord (chordName : String) : Bool :=
  match parseChordName chordName with
  | .ok (_, ty) => (CHORD_INTERVALS.lookup ty).isSome
  | .error _ => false

/-- The interval→degree switch inside `getNoteDegree` of `chordMatcher.js`:
0→1, 3→3, 4→3, 5→4, 7→5, 8→5, 10→7, 11→7, default −1. -/
def degreeSwitchMatcher (interval : Int) : Int :=
  if interval == 0 then 1
  else if interval == 3 then 3
  else if interval == 4 then 3
  else if interval == 5 then 4
  else if interval == 7 then 5
  else if interval == 8 then 5
  else if interval == 10 then 7
  else if interval == 11 then 7
  else -1

/-- `getNoteDegree` of `chordMatcher.js`: semitone distance from the root
(both looked up unnormalized in the chromatic scale) through
`degreeSwitchMatcher`; −1 when either name is missing from the scale. The
`chordNotes` parameter is unused in the source as well. -/
def getNoteDegree (note rootNote : String) (chordNotes : List String) : Int :=
  let _ := chordNotes
  let rootIndex := indexOfStr CHROMATIC_SCALE rootNote
  let noteIndex := indexOfStr CHROMATIC_SCALE note
  if rootIndex == -1 || noteIndex == -1 then -1
  else degreeSwitchMatcher ((noteIndex - rootIndex + 12).tmod 12)

/-- The interval→degree switch inside `determineNoteDegrees` of
`chordOptimizer.js`: 0→1, 3→3, 4→3, 7→5, 10→7, 11→7, default −1 (note: no
case for 5 or 8). -/
def degreeSwitchOptimizer (interval : Int) : Int :=
  if interval == 0 then 1
  else if interval == 3 then 3
  else if interval == 4 then 3
  else if interval == 7 then 5
  else if interval == 10 then 7
  else if interval == 11 then 7
  else -1

/-- `determineNoteDegrees` of `chordOptimizer.js`: for each chord note found
in the chromatic scale (notes not in the scale are skipped), record the
degree of its semitone distance from the root. The JS object is modelled as
an association list (duplicate notes get the same degree, so first-match
lookup agrees with the object). -/
def determineNoteDegrees (chordNotes : List String) (rootNote : String) :
    List (String × Int) :=
  let rootIndex := indexOfStr CHROMATIC_SCALE rootNote
  chordNotes.filterMap (fun note =>
    let noteIndex := indexOfStr CHROMATIC_SCALE note
    if noteIndex == -1 then none
    else some (note, degreeSwitchOptimizer ((noteIndex - rootIndex + 12).tmod 12)))

/-- `SCORE_WEIGHTS` of `chordOptimizer.js`: fretRange −2.0, openStrings 1.5,
barreChords −1.0, standardChords 2.0. -/
structure ScoreWeights where
  fretRange : ℚ
  openStrings : ℚ
  barreChords : ℚ
  standardChords : ℚ

def SCORE_WEIGHTS : ScoreWeights :=
  { fretRange := -2, openStrings := 3 / 2, barreChords := -1, standardChords := 2 }

/-- `STANDARD_CHORDS` of `chordOptimizer.js`: the catalog of open-position
fingerings the similarity bonus compares against, keys in insertion order. -/
def STANDARD_CHORDS : List (String × List Pos) :=
  [("C", [⟨"6E", -1, none⟩, ⟨"5A", 3, some "C"⟩, ⟨"4D", 2, some "E"⟩,
          ⟨"3G", 0, some "G"⟩, ⟨"2B", 1, some "C"⟩, ⟨"1e", 0, some "E"⟩]),
   ("G", [⟨"6E", 3, some "G"⟩, ⟨"5A", 2, some "B"⟩, ⟨"4D", 0, some "D"⟩,
          ⟨"3G", 0, some "G"⟩, ⟨"2B", 0, some "B"⟩, ⟨"1e", 3, some "G"⟩]),
   ("D", [⟨"6E", -1, none⟩, ⟨"5A", -1, none⟩, ⟨"4D", 0, some "D"⟩,
          ⟨"3G", 2, some "A"⟩, ⟨"2B", 3, some "D"⟩, ⟨"1e", 2, some "F#"⟩]),
   ("Am", [⟨"6E", -1, none⟩, ⟨"5A", 0, some "A"⟩, ⟨"4D", 2, some "E"⟩,
           ⟨"3G", 2, some "A"⟩, ⟨"2B", 1, some "C"⟩, ⟨"1e", 0, some "E"⟩]),
   ("Em", [⟨"6E", 0, some "E"⟩, ⟨"5A", 2, some "B"⟩, ⟨"4D", 2, some "E"⟩,
           ⟨"3G", 0, some "G"⟩, ⟨"2B", 0, some "B"⟩, ⟨"1e", 0, some "E"⟩])]

/-- `createFullFingering` of `chordOptimizer.js`: one entry per string in
`STRINGS_ORDER`, the selected position if one uses that string (JS `find`:
first match), else a muted entry `{string, fret: -1, note: null}`. -/
def createFullFingering (selectedPositions : List Pos) : List Pos :=
  STRINGS_ORDER.map (fun string =>
    match selectedPositions.find? (fun pos => pos.string == string) with
    | some position => position
    | none => ⟨string, -1, none⟩)

/-- The recursion inside `generateAllCombinations` of `chordOptimizer.js`
(`generateCombination(currentCombination, remainingNotes)`; the arguments are
swapped here so the recursion is structural on the note list): when no notes
remain, emit the completed full fingering; otherwise try every position of
the current note whose string is not yet used, in list order. -/
def generateCombination (positionsByNote : String → List Pos) :
    List String → List Pos → List (List Pos)
  | [], currentCombination => [createFullFingering currentCombination]
  | currentNote :: remainingNotes, currentCombination =>
      (positionsByNote currentNote).flatMap (fun position =>
        if currentCombination.any (fun pos => pos.string == position.string) then []
        else generateCombination positionsByNote remainingNotes
          (currentCombination ++ [position]))

/-- `generateAllCombinations` of `chordOptimizer.js`. -/
def generateAllCombinations (positionsByNote : String → List Pos)
    (chordNotes : List String) : List (List Pos) :=
  generateCombination positionsByNote chordNotes []

/-- The frets of the non-muted entries (`fret >= 0`), as collected by
`calculateFretRange`. -/
def activeFrets (fingering : List Pos) : List Int :=
  (fingering.filter (fun pos => 0 ≤ pos.fret)).map (fun pos => pos.fret)

/-- `calculateFretRange` of `chordOptimizer.js`: max − min of the frets of
the non-muted entries (open strings included, the filter is `fret >= 0`);
0 when every string is muted. -/
def calculateFretRange (fingering : List Pos) : Int :=
  match activeFrets fingering with
  | [] => 0
  | f :: fs => fs.foldl max f - fs.foldl min f

/-- `countOpenStrings` of `chordOptimizer.js`. -/
def countOpenStrings (fingering : List Pos) : Nat :=
  (fingering.filter (fun pos => pos.fret == 0)).length

/-- `STRINGS_ORDER.indexOf` as `calculateBarreRequirement` uses it (both the
local `stringOrder` copy and the global have the same six entries). -/
def stringIndexOf (s : String) : Int := indexOfStr STRINGS_ORDER s

/-- A stable insertion sort: `x` is inserted after every element `y` of the
accumulator with `le y x`, so elements comparing equal keep their left-to-right
order, as JS `Array.prototype.sort` (stable) with a numeric comparator. -/
def insertSortedBy (le : α → α → Bool) (x : α) : List α → List α
  | [] => [x]
  | y :: ys => if le y x then y :: insertSortedBy le x ys else x :: y :: ys

def stableSortBy (le : α → α → Bool) (l : List α) : List α :=
  l.foldl (fun acc x => insertSortedBy le x acc) []

/-- The adjacency check of `calculateBarreRequirement`: every consecutive
pair of the string-sorted group must be on neighbouring strings
(`nextIndex - currentIndex > 1` breaks). -/
def adjacentChain : List Pos → Bool
  | a :: b :: rest =>
      if 1 < stringIndexOf b.string - stringIndexOf a.string then false
      else adjacentChain (b :: rest)
  | _ => true

/-- Ascending deduplication of a sorted list, for the fret keys of the
grouping object (JS iterates integer-like keys in ascending numeric order). -/
def uniqueSorted : List Int → List Int
  | [] => []
  | [x] => [x]
  | x :: y :: rest =>
      if x == y then uniqueSorted (y :: rest) else x :: uniqueSorted (y :: rest)

/-- The `for (const fret in frets)` loop of `calculateBarreRequirement`:
for each fret (ascending), if more than one position sits on it, sort the
group by string and return its size when the strings are contiguous;
otherwise move on; 0 when no fret qualifies. -/
def barreLoop (activePositions : List Pos) : List Int → Nat
  | [] => 0
  | fret :: rest =>
      let group := activePositions.filter (fun pos => pos.fret == fret)
      if 1 < group.length then
        let sorted := stableSortBy
          (fun a b => stringIndexOf a.string ≤ stringIndexOf b.string) group
        if adjacentChain sorted then group.length else barreLoop activePositions rest
      else barreLoop activePositions rest

/-- `calculateBarreRequirement` of `chordOptimizer.js`: over the fretted
positions (`fret > 0`), the size of the first (lowest-fret) group of two or
more positions sharing a fret whose strings are contiguous; 0 otherwise. -/
def calculateBarreRequirement (fingering : List Pos) : Nat :=
  let activePositions := fingering.filter (fun pos => 0 < pos.fret)
  if activePositions.length < 2 then 0
  else barreLoop activePositions
    (uniqueSorted (stableSortBy (fun a b => a ≤ b)
      (activePositions.map (fun pos => pos.fret))))

/-- `chordName.replace(/[^A-G]/g, '')` in `calculateStandardChordMatch`:
keep only the capital letters A–G. -/
def baseChordName (chordName : String) : String :=
  String.mk (chordName.toList.filter (fun c => 'A' ≤ c ∧ c ≤ 'G'))

/-- The (matches, total) counters of `calculateStandardChordMatch`: positions
where the standard fingering is muted are skipped; a match needs equal fret
and equal note. The source indexes the standard fingering by the candidate's
index (both are six entries long at every call site); `zip` realizes that. -/
def stdMatchCounts (fingering standardFingering : List Pos) : Nat × Nat :=
  (fingering.zip standardFingering).foldl
    (fun mt pq =>
      if pq.2.fret == -1 then mt
      else if pq.1.fret == pq.2.fret ∧ pq.1.note == pq.2.note then
        (mt.1 + 1, mt.2 + 1)
      else (mt.1, mt.2 + 1))
    (0, 0)

/-- `calculateStandardChordMatch` of `chordOptimizer.js`: 0 without a catalog
entry for the stripped name, otherwise matches/total (0 when total is 0). -/
def calculateStandardChordMatch (fingering : List Pos) (chordName : String) : ℚ :=
  match STANDARD_CHORDS.lookup (baseChordName chordName) with
  | none => 0
  | some standardFingering =>
      let mt := stdMatchCounts fingering standardFingering
      if 0 < mt.2 then (mt.1 : ℚ) / (mt.2 : ℚ) else 0

/-- `calculateScore` of `chordOptimizer.js`: the weighted sum of the four
metrics. -/
def calculateScore (fingering : List Pos) (chordName : String) : ℚ :=
  SCORE_WEIGHTS.fretRange * (calculateFretRange fingering : ℚ)
    + SCORE_WEIGHTS.openStrings * (countOpenStrings fingering : ℚ)
    + SCORE_WEIGHTS.barreChords * (calculateBarreRequirement fingering : ℚ)
    + SCORE_WEIGHTS.standardChords * calculateStandardChordMatch fingering chordName

/-- One step of the scan in `findLowestRootNote`: keep the position with the
strictly smallest MIDI number seen so far (ties keep the earlier find). The
accumulator carries the candidate and its MIDI number. A lattice entry whose
name is missing from `NOTE_MIDI_NUMBERS` would make the source throw; none
exists, and it is modelled as a skip. -/
def lowestRootStep (rootNote : String) (acc : Option (Pos × Nat))
    (e : String × Nat × String) : Option (Pos × Nat) :=
  let noteName := extractNoteName e.2.2
  if noteName == rootNote then
    match calculateMidiNumber e.2.2 with
    | none => acc
    | some midiNumber =>
        match acc with
        | none => some (⟨e.1, (e.2.1 : Int), some noteName⟩, midiNumber)
        | some best =>
            if midiNumber < best.2 then
              some (⟨e.1, (e.2.1 : Int), some noteName⟩, midiNumber)
            else acc
  else acc

/-- `findLowestRootNote` of `chordOptimizer.js`: scan every string (insertion
order) and fret (ascending) and return the occurrence of the root with the
lowest MIDI number, or null. -/
def findLowestRootNote (rootNote : String) : Option Pos :=
  (latticeEntries.foldl (lowestRootStep rootNote) none).map (fun best => best.1)

/-- `findRootNoteOnOpenString` of `chordOptimizer.js`: the first string (in
low-to-high order) whose open note is the root; the source also records the
open note's midi and octave, which no caller reads and the `Pos` model
drops. -/
def findRootNoteOnOpenString (rootNote : String) : Option Pos :=
  STRINGS_ORDER.findSome? (fun string =>
    match noteNameAt string 0 with
    | some noteName =>
        if noteName == rootNote then some ⟨string, 0, some noteName⟩ else none
    | none => none)

/-- The window scanned by `buildChordFromRoot` around the root fret:
`for (let fret = Math.max(0, rootFret - 2); fret <= Math.min(7, rootFret + 2);
fret++)` with fret 0 skipped (`continue`), realized as a filter of the
ascending lattice frets 0–7. -/
def windowFrets (rootFret : Int) : List Nat :=
  (List.range 8).filter (fun fret =>
    max 0 (rootFret - 2) ≤ (fret : Int) ∧ (fret : Int) ≤ min 7 (rootFret + 2)
      ∧ fret ≠ 0)

/-- The check the search loops of `buildChordFromRoot` perform at one fret:
if the string carries the target note there, the found position
`{string, fret, note}`; otherwise nothing (also covering the source's
`if (!noteWithOctave) continue`). -/
def fretHit (string targetNote : String) (fret : Nat) : Option Pos :=
  match noteNameAt string fret with
  | some noteName =>
      if noteName == targetNote then some ⟨string, (fret : Int), some noteName⟩
      else none
  | none => none

/-- The per-string position search of `buildChordFromRoot`, in source order:
(1) the open string; (2) the frets within ±2 of the root fret, clamped to
0–7, fret 0 skipped, lowest first; (3) the open string again (a re-check the
source performs) and then frets 1–7, lowest first. `none` when the string
does not carry the target note at any scanned fret. -/
def findPositionOnString (string targetNote : String) (rootFret : Int) :
    Option Pos :=
  (fretHit string targetNote 0).orElse (fun _ =>
    ((windowFrets rootFret).findSome? (fretHit string targetNote)).orElse (fun _ =>
      (fretHit string targetNote 0).orElse (fun _ =>
        ((List.range 7).map (fun i => i + 1)).findSome?
          (fretHit string targetNote))))

/-- The target-note resolution of `buildChordFromRoot` for one template
degree: degree 1 is the root; otherwise the first chord note whose recorded
degree matches (`noteDegrees[note] === degree`, false for a note without an
entry). -/
def targetNoteFor (noteDegrees : List (String × Int)) (chordNotes : List String)
    (rootNote : String) (degree : Int) : Option String :=
  if degree == 1 then some rootNote
  else chordNotes.find? (fun note => noteDegrees.lookup note == some degree)

/-- One string of the template loop in `buildChordFromRoot`: resolve the
target note for the degree, then search the string; a missing target or a
fruitless search yields the muted entry. -/
def resolveStringEntry (noteDegrees : List (String × Int))
    (chordNotes : List String) (rootNote : String) (rootFret : Int)
    (sd : String × Int) : Pos :=
  match targetNoteFor noteDegrees chordNotes rootNote sd.2 with
  | none => ⟨sd.1, -1, none⟩
  | some targetNote =>
      match findPositionOnString sd.1 targetNote rootFret with
      | some foundPosition => foundPosition
      | none => ⟨sd.1, -1, none⟩

/-- The template (strings, degrees) `buildChordFromRoot` selects from the
anchor's string: dedicated templates for the three lowest strings, and a
generic six-string template for every other anchor. -/
def chordShapeFor (anchorString : String) : List String × List Int :=
  if anchorString == "6E" then
    (["6E", "5A", "4D", "3G", "2B", "1e"], [1, 5, 1, 3, 5, 1])
  else if anchorString == "5A" then
    (["5A", "4D", "3G", "2B", "1e"], [1, 5, 1, 3, 5])
  else if anchorString == "4D" then
    (["4D", "3G", "2B", "1e"], [1, 5, 1, 3])
  else (STRINGS_ORDER, [1, 3, 5, 1, 3, 5])

/-- Substring search: does `needle` occur contiguously inside the list? -/
def containsSeq (needle : List Char) : List Char → Bool
  | [] => needle.isEmpty
  | c :: cs => needle.isPrefixOf (c :: cs) || containsSeq needle cs

/-- `chordName.includes(sub)` (substring containment). -/
def strIncludes (chordName sub : String) : Bool :=
  containsSeq sub.toList chordName.toList

/-- `buildChordFromRoot` of `chordOptimizer.js`. Declared in the source as
returning a fingering "или null" (or null), hence the `Option`; every branch
of the body in fact returns an array (the minor-chord adjustment maps each
degree 3 to 3, an identity the source itself notes it performs). A result
shorter than six entries is padded with muted strings in `STRINGS_ORDER`
order. -/
def buildChordFromRoot (rootNote : String) (chordNotes : List String)
    (rootPosition : Pos) (chordName : String) : Option (List Pos) :=
  let noteDegrees := determineNoteDegrees chordNotes rootNote
  let chordShape := chordShapeFor rootPosition.string
  let isMajor := !(strIncludes chordName "m" || strIncludes chordName "min"
    || strIncludes chordName "-")
  let degrees :=
    if !isMajor ∧ chordShape.2.contains 3 then
      chordShape.2.map (fun d => if d == 3 then 3 else d)
    else chordShape.2
  let fingering := (chordShape.1.zip degrees).map
    (resolveStringEntry noteDegrees chordNotes rootNote rootPosition.fret)
  if fingering.length < 6 then
    some (STRINGS_ORDER.map (fun string =>
      match fingering.find? (fun pos => pos.string == string) with
      | some position => position
      | none => ⟨string, -1, none⟩))
  else some fingering

/-- One scored candidate, as the objects `findOptimalFingering` builds:
the fingering with its score and the four metrics. -/
structure FingeringScore where
  fingering : List Pos
  score : ℚ
  fretRange : Int
  openStrings : Nat
  barreRequirement : Nat
  standardMatch : ℚ
deriving DecidableEq

/-- The result object of `findOptimalFingering`. -/
structure OptimalResult where
  chordName : String
  notes : List String
  totalCombinations : Nat
  validCombinations : Nat
  hasGoodFingering : Bool
  topFingerings : List FingeringScore
  bestFingering : Option FingeringScore
deriving DecidableEq

/-- The metric bundle `findOptimalFingering` computes for a fingering. -/
def scoreEntry (fingering : List Pos) (chordName : String) : FingeringScore :=
  { fingering := fingering
    score := calculateScore fingering chordName
    fretRange := calculateFretRange fingering
    openStrings := countOpenStrings fingering
    barreRequirement := calculateBarreRequirement fingering
    standardMatch := calculateStandardChordMatch fingering chordName }

/-- The root-position choice of `findOptimalFingering` (steps 1–2): the open
string occurrence when one exists, else the lattice-wide lowest occurrence. -/
def rootAnchor (rootNote : String) : Option Pos :=
  match findRootNoteOnOpenString rootNote with
  | some openStringRoot => some openStringRoot
  | none => findLowestRootNote rootNote

/-- `findOptimalFingering` of `chordOptimizer.js`, at the default options
(`maxFretRange` 4, `topN` 3, `scoreThreshold` −5, `maxCombinations` 50 —
every caller in the repository uses the defaults, inlined here as
literals). The root is `chordNotes[0]` (the empty string, matching no
lattice note, models the undefined of an empty array). The fallback branch
(reached only when `buildChordFromRoot` returns null) caps the generated
combinations at 50 after sorting them by fret range, filters by fret range,
evaluates, sorts by descending score (JS sort is stable) and keeps the
top 3. -/
def findOptimalFingering (chordNotes : List String) (chordName : String) :
    OptimalResult :=
  match rootAnchor (chordNotes.headD "") with
  | none =>
      { chordName := chordName, notes := chordNotes, totalCombinations := 0,
        validCombinations := 0, hasGoodFingering := false, topFingerings := [],
        bestFingering := none }
  | some rootPosition =>
      match buildChordFromRoot (chordNotes.headD "") chordNotes rootPosition
          chordName with
      | some primaryFingering =>
          let primaryScore := scoreEntry primaryFingering chordName
          let hasGoodFingering : Bool := decide ((-5 : ℚ) ≤ primaryScore.score)
          { chordName := chordName, notes := chordNotes, totalCombinations := 1,
            validCombinations := if hasGoodFingering then 1 else 0,
            hasGoodFingering := hasGoodFingering,
            topFingerings := [primaryScore], bestFingering := some primaryScore }
      | none =>
          let positionsByNote := findAllPossiblePositions chordNotes
          let generated := generateAllCombinations positionsByNote chordNotes
          let allCombinations :=
            if 50 < generated.length then
              (stableSortBy
                (fun a b => calculateFretRange a ≤ calculateFretRange b)
                generated).take 50
            else generated
          let validCombinations := allCombinations.filter
            (fun fingering => calculateFretRange fingering ≤ (4 : Int))
          let combinationsToEvaluate :=
            if 0 < validCombinations.length then validCombinations
            else allCombinations.take 10
          let scoredCombinations := combinationsToEvaluate.map
            (fun fingering => scoreEntry fingering chordName)
          let sorted := stableSortBy (fun a b => b.score ≤ a.score) scoredCombinations
          let topCombinations := sorted.take 3
          let hasGoodFingering : Bool :=
            match topCombinations.head? with
            | some best => decide ((-5 : ℚ) ≤ best.score)
            | none => false
          { chordName := chordName, notes := chordNotes,
            totalCombinations := allCombinations.length,
            validCombinations := validCombinations.length,
            hasGoodFingering := hasGoodFingering,
            topFingerings := topCombinations,
            bestFingering := topCombinations.head? }

/-- Spec-side (claim C4 wording): "`fretSpan` = max fret − min fret among
non-muted, non-open strings (0 if none)". -/
def specFretSpan (fingering : List Pos) : Int :=
  match (fingering.filter (fun pos => 0 < pos.fret)).map (fun pos => pos.fret) with
  | [] => 0
  | f :: fs => fs.foldl max f - fs.foldl min f

/-- Spec-side (claim C4 wording): "`barreRequired` = 1 if two or more
non-muted strings on adjacent string positions share the same fret > 0,
else 0". -/
def specBarreFlag (fingering : List Pos) : Nat :=
  if fingering.any (fun p => fingering.any (fun q =>
      0 < p.fret ∧ p.fret = q.fret
        ∧ stringIndexOf q.string = stringIndexOf p.string + 1)) then 1 else 0

/-- Spec-side (claim C4 wording): the score formula with the claim's span and
barre terms, at the source's weights. -/
def specScore (fingering : List Pos) (chordName : String) : ℚ :=
  SCORE_WEIGHTS.fretRange * (specFretSpan fingering : ℚ)
    + SCORE_WEIGHTS.openStrings * (countOpenStrings fingering : ℚ)
    + SCORE_WEIGHTS.barreChords * (specBarreFlag fingering : ℚ)
    + SCORE_WEIGHTS.standardChords * calculateStandardChordMatch fingering chordName

/-- Spec-side (claim C3 wording): does the root pitch class occur in the
bounded window "lowest three strings, frets 0–4"? -/
def specLowWindowHasRoot (rootNote : String) : Bool :=
  ["6E", "5A", "4D"].any (fun string =>
    (List.range 5).any (fun fret => noteNameAt string fret == some rootNote))

/-- Spec-side (claim C8 wording): the lattice frets (0–7 per the data
model) "within ±2 of the anchor fret (excluding 0)", ascending. -/
def specWindowFrets (rootFret : Int) : List Nat :=
  (List.range 8).filter (fun fret =>
    rootFret - 2 ≤ (fret : Int) ∧ (fret : Int) ≤ rootFret + 2 ∧ fret ≠ 0)

/-- Spec-side (claim C8 wording): the fret search order for one template
string — "fret 0 (open string); then the frets within ±2 of the anchor fret
(excluding 0, lowest fret first); then the full fret range 1–7 (lowest fret
first)". -/
def specSearchFrets (rootFret : Int) : List Nat :=
  0 :: (specWindowFrets rootFret ++ ((List.range 7).map (fun i => i + 1)))

/-- Spec-side (claim C8 wording): "taking the first hit" over the search
order — the first fret of `specSearchFrets` at which the string carries the
target pitch class. -/
def specFirstHit (string targetNote : String) (rootFret : Int) : Option Pos :=
  (specSearchFrets rootFret).findSome? (fretHit string targetNote)

/-- Spec-side (claim C9 wording): `sel` assigns "one fretboard occurrence per
chord tone with no two tones sharing a string", extending the already chosen
positions `current` — the search-tree characterization of
`generateCombination`. -/
def IsSelectionFrom (positionsByNote : String → List Pos) :
    List Pos → List String → List Pos → Prop
  | _, [], sel => sel = []
  | current, note :: rest, sel =>
      ∃ p sel2, sel = p :: sel2 ∧ p ∈ positionsByNote note
        ∧ (∀ q ∈ current, ¬ q.string = p.string)
        ∧ IsSelectionFrom positionsByNote (current ++ [p]) rest sel2

/-- Spec-side (claim C6 wording): the leading note token "is a letter A–G
optionally followed by # or b" — the regex `^([A-G][#b]?)(.*)$` matches the
normalized input exactly when it starts with a capital A–G. -/
def specRootTokenMatches (chordName : String) : Bool :=
  match (normalizeChordInput chordName).toList with
  | [] => false
  | c :: _ => 'A' ≤ c ∧ c ≤ 'G'

/-- The open-position C-major shape (the "C" entry of `STANDARD_CHORDS`),
used as a concrete test fingering. -/
def cShapeFingering : List Pos :=
  [⟨"6E", -1, none⟩, ⟨"5A", 3, some "C"⟩, ⟨"4D", 2, some "E"⟩,
   ⟨"3G", 0, some "G"⟩, ⟨"2B", 1, some "C"⟩, ⟨"1e", 0, some "E"⟩]

/-- A concrete fingering with exactly two adjacent strings fretted at the
same fret 1 (a two-string barre). -/
def barrePairFingering : List Pos :=
  [⟨"6E", 1, some "F"⟩, ⟨"5A", 1, some "A#"⟩, ⟨"4D", -1, none⟩,
   ⟨"3G", -1, none⟩, ⟨"2B", -1, none⟩, ⟨"1e", -1, none⟩]

/-- A concrete fingering whose fret-1 group (strings 6E, 5A, 3G) contains an
adjacent pair but is not contiguous as a whole. -/
def barreGapFingering : List Pos :=
  [⟨"6E", 1, some "F"⟩, ⟨"5A", 1, some "A#"⟩, ⟨"4D", -1, none⟩,
   ⟨"3G", 1, some "G#"⟩, ⟨"2B", -1, none⟩, ⟨"1e", -1, none⟩]


/-- Well-formedness of an accumulator entry of the `findLowestRootNote`
scan: the position records a lattice occurrence of the root, and the stored
MIDI number is that occurrence's. -/
def IsLowestCand (rootNote : String) (pm : Pos × Nat) : Prop :=
  ∃ fr : Nat, pm.1.fret = (fr : Int)
    ∧ ∃ nwo, nwoAt pm.1.string fr = some nwo
      ∧ extractNoteName nwo = rootNote
      ∧ pm.1.note = some rootNote
      ∧ calculateMidiNumber nwo = some pm.2


/-- The well-formedness the claims demand of one fingering entry: a
non-muted entry (fret >= 0) carries a note name, and it is exactly the
pitch-class name the lattice assigns to its (string, fret). -/
def ValidEntry (p : Pos) : Prop :=
  0 ≤ p.fret → p.note.isSome = true ∧ noteNameAt p.string p.fret.toNat = p.note


theorem filter_idem (p : α → Bool) (l : List α) :
    (l.filter p).filter p = l.filter p := by
  induction l with
  | nil => rfl
  | cons a l ih =>
      by_cases h : p a <;> simp [List.filter_cons, h, ih]

theorem baseChordName_idem (chordName : String) :
    baseChordName (baseChordName chordName) = baseChordName chordName := by
  unfold baseChordName
  exact congrArg String.mk (filter_idem _ _)

theorem baseChordName_no_lowercase (chordName : String) (c : Char)
    (hc : c ∈ (baseChordName chordName).toList) : 'A' ≤ c ∧ c ≤ 'G' := by
  unfold baseChordName at hc
  have := List.mem_filter.mp hc
  exact of_decide_eq_true this.2

/-- C10: the standard-shape similarity metric depends on the chord name only
through its capital letters A–G: `calculateStandardChordMatch` strips every
other character before the catalog lookup, so "Cm", "C#m7" and "C" are all
compared against the "C" entry; and since the stripped name never contains
'm', the "Am" and "Em" catalog entries are unreachable — any lookup that
succeeds is for the "C", "G" or "D" major shape, and other names (minor
roots included) score 0 at the lookup. -/
theorem C10_standard_match_depends_only_on_letters
    (fingering : List Pos) (chordName : String) :
    calculateStandardChordMatch fingering chordName
        = calculateStandardChordMatch fingering (baseChordName chordName)
      ∧ baseChordName chordName ≠ "Am" ∧ baseChordName chordName ≠ "Em"
      ∧ (STANDARD_CHORDS.lookup (baseChordName chordName) = none
          ∨ baseChordName chordName = "C" ∨ baseChordName chordName = "G"
          ∨ baseChordName chordName = "D")
      ∧ baseChordName "Cm" = "C" ∧ baseChordName "C#m7" = "C"
      ∧ baseChordName "C" = "C" := by
  have hAm : baseChordName chordName ≠ "Am" := by
    intro h
    have hd : (baseChordName chordName).toList = ['A', 'm'] := by
      rw [h]; rfl
    have hm : ('m' : Char) ∈ (baseChordName chordName).toList := by
      rw [hd]; simp
    have := baseChordName_no_lowercase chordName 'm' hm
    revert this; decide
  have hEm : baseChordName chordName ≠ "Em" := by
    intro h
    have hd : (baseChordName chordName).toList = ['E', 'm'] := by
      rw [h]; rfl
    have hm : ('m' : Char) ∈ (baseChordName chordName).toList := by
      rw [hd]; simp
    have := baseChordName_no_lowercase chordName 'm' hm
    revert this; decide
  refine ⟨?_, hAm, hEm, ?_, by decide, by decide, by decide⟩
  · unfold calculateStandardChordMatch
    rw [baseChordName_idem]
  · by_cases hC : baseChordName chordName = "C"
    · exact Or.inr (Or.inl hC)
    by_cases hG : baseChordName chordName = "G"
    · exact Or.inr (Or.inr (Or.inl hG))
    by_cases hD : baseChordName chordName = "D"
    · exact Or.inr (Or.inr (Or.inr hD))
    refine Or.inl ?_
    have hC' : (baseChordName chordName == "C") = false := by simpa using hC
    have hG' : (baseChordName chordName == "G") = false := by simpa using hG
    have hD' : (baseChordName chordName == "D") = false := by simpa using hD
    have hAm' : (baseChordName chordName == "Am") = false := by simpa using hAm
    have hEm' : (baseChordName chordName == "Em") = false := by simpa using hEm
    simp [STANDARD_CHORDS, List.lookup, hC', hG', hD', hAm', hEm']

/-- C7 counterexample: the claimed table maps every distance outside
{0,3,4,7,8,10,11} to the sentinel and maps 8 to degree 5 in both
implementations. At distance 5 (note F against root C) `chordMatcher.js`
returns degree 4, not the sentinel; at distance 8 (note G# against root C)
`chordOptimizer.js` returns the sentinel −1, not 5. -/
theorem C7_counterexample :
    getNoteDegree "F" "C" [] = 4 ∧ getNoteDegree "F" "C" [] ≠ -1
      ∧ determineNoteDegrees ["G#"] "C" = [("G#", -1)]
      ∧ degreeSwitchOptimizer 8 ≠ 5 := by
  decide

/-- C7 (amended): both degree classifiers compute the semitone distance from
the root modulo 12 and apply their switch; the two switches agree on every
distance except 5 and 8 — both map 0→1, 3→3, 4→3, 7→5, 10→7, 11→7 and send
the remaining common distances to the sentinel −1 — but at distance 5 the
matcher yields 4 where the optimizer yields the sentinel, and at distance 8
the matcher yields 5 where the optimizer again yields the sentinel. -/
theorem C7_amended (note rootNote : String) (chordNotes : List String) (d : Int) :
    (degreeSwitchMatcher 0 = 1 ∧ degreeSwitchOptimizer 0 = 1
      ∧ degreeSwitchMatcher 3 = 3 ∧ degreeSwitchMatcher 4 = 3
      ∧ degreeSwitchOptimizer 3 = 3 ∧ degreeSwitchOptimizer 4 = 3
      ∧ degreeSwitchMatcher 7 = 5 ∧ degreeSwitchOptimizer 7 = 5
      ∧ degreeSwitchMatcher 10 = 7 ∧ degreeSwitchMatcher 11 = 7
      ∧ degreeSwitchOptimizer 10 = 7 ∧ degreeSwitchOptimizer 11 = 7
      ∧ degreeSwitchMatcher 5 = 4 ∧ degreeSwitchOptimizer 5 = -1
      ∧ degreeSwitchMatcher 8 = 5 ∧ degreeSwitchOptimizer 8 = -1)
    ∧ (d ≠ 5 → d ≠ 8 → degreeSwitchMatcher d = degreeSwitchOptimizer d)
    ∧ (indexOfStr CHROMATIC_SCALE note ≠ -1 → indexOfStr CHROMATIC_SCALE rootNote ≠ -1 →
        getNoteDegree note rootNote chordNotes
          = degreeSwitchMatcher ((indexOfStr CHROMATIC_SCALE note
              - indexOfStr CHROMATIC_SCALE rootNote + 12).tmod 12))
    ∧ (indexOfStr CHROMATIC_SCALE note ≠ -1 →
        (determineNoteDegrees (note :: chordNotes) rootNote).lookup note
          = some (degreeSwitchOptimizer ((indexOfStr CHROMATIC_SCALE note
              - indexOfStr CHROMATIC_SCALE rootNote + 12).tmod 12))) := by
  refine ⟨by decide, ?_, ?_, ?_⟩
  · intro h5 h8
    unfold degreeSwitchMatcher degreeSwitchOptimizer
    split_ifs <;> simp_all
  · intro hn hr
    unfold getNoteDegree
    have hr' : (indexOfStr CHROMATIC_SCALE rootNote == -1) = false := by
      simpa using hr
    have hn' : (indexOfStr CHROMATIC_SCALE note == -1) = false := by
      simpa using hn
    simp [hr', hn']
  · intro hn
    have hn' : (indexOfStr CHROMATIC_SCALE note == -1) = false := by
      simpa using hn
    unfold determineNoteDegrees
    simp [List.filterMap_cons, hn, hn', List.lookup]

theorem lookup_mem {β : Type} (l : List (String × β)) (k : String) (v : β)
    (h : l.lookup k = some v) : (k, v) ∈ l := by
  induction l with
  | nil => simp [List.lookup] at h
  | cons p l ih =>
      obtain ⟨k', v'⟩ := p
      by_cases hk : k == k'
      · have hk' : k = k' := by simpa using hk
        rw [List.lookup, hk] at h
        simp at h
        simp [hk', h]
      · have hk2 : (k == k') = false := by simpa using hk
        rw [List.lookup, hk2] at h
        exact List.mem_cons_of_mem _ (ih h)

theorem indexOfStr_found (l : List String) (s : String)
    (h : indexOfStr l s ≠ -1) :
    ∃ i : Nat, indexOfStr l s = (i : Int) ∧ l.get? i = some s := by
  induction l with
  | nil => simp [indexOfStr] at h
  | cons x xs ih =>
      by_cases hx : x == s
      · have hx' : x = s := by simpa using hx
        exact ⟨0, by simp [indexOfStr, hx], by simp [hx']⟩
      · have hx2 : (x == s) = false := by simpa using hx
        by_cases hr : indexOfStr xs s = -1
        · exfalso
          apply h
          simp [indexOfStr, hx2, hr]
        · obtain ⟨i, hi, hget⟩ := ih hr
          have hne : (indexOfStr xs s == -1) = false := by
            simpa using hr
          refine ⟨i + 1, ?_, by simpa using hget⟩
          simp [indexOfStr, hx2, hne, hi]

theorem getNoteByIndex_at (i : Nat) (hi : i < 12) :
    getNoteByIndex (i : Int) = (CHROMATIC_SCALE.get? i).getD "" := by
  unfold getNoteByIndex
  have h0 : (0 : Int) ≤ (i : Int) := Int.ofNat_nonneg i
  have h12 : (0 : Int) ≤ (12 : Int) := by norm_num
  rw [Int.tmod_eq_emod h0 h12]
  have e1 : (i : Int) % 12 = (i : Int) := by omega
  rw [e1, Int.tmod_eq_emod (by omega) h12]
  have e2 : ((i : Int) + 12) % 12 = (i : Int) := by omega
  rw [e2]
  simp

theorem chord_intervals_props : ∀ kv ∈ CHORD_INTERVALS,
    kv.2.head? = some 0 ∧ List.Pairwise (fun a b => a % 12 ≠ b % 12) kv.2 := by
  decide

/-- C5: the parser's own support test `isSupportedChord` accepts the symbols
"Cb" and "Fb" (the regex token parses, the empty quality is in the table),
but `parseChord` throws the unknown-note error on them: `NOTE_ALIASES` lacks
the ASCII spellings "Cb" and "Fb" while containing the flat-sign spellings
"C♭"/"F♭" and the (unreachable) lowercase "cb"/"fb", so the normalized root
misses the chromatic scale — a slip in the code, not in the claim.
On every symbol where `parseChord` succeeds, the claim's properties hold:
as many note names as the quality's interval offsets, first offset 0, first
note the normalized root, and offsets pairwise distinct modulo 12. -/
theorem C5_supported_parse_tone_counts :
    isSupportedChord "Cb" = true
      ∧ parseChord "Cb" = Except.error ParseError.unknownNote
      ∧ isSupportedChord "Fb" = true
      ∧ parseChord "Fb" = Except.error ParseError.unknownNote
      ∧ (∀ (s : String) (notes : List String), parseChord s = Except.ok notes →
          ∃ root ty intervals, parseChordName s = Except.ok (root, ty)
            ∧ CHORD_INTERVALS.lookup ty = some intervals
            ∧ notes.length = intervals.length
            ∧ intervals.head? = some 0
            ∧ notes.head? = some (normalizeNote root)
            ∧ List.Pairwise (fun a b => a % 12 ≠ b % 12) intervals) := by
  refine ⟨by decide, by rfl, by decide, by rfl, ?_⟩
  intro s notes h
  unfold parseChord at h
  split at h
  · exact absurd h (by simp)
  · rename_i root ty hp
    split at h
    · exact absurd h (by simp)
    · rename_i intervals hl
      split at h
      · exact absurd h (by simp)
      · rename_i hri
        have hnotes : notes = intervals.map
            (fun (interval : Nat) => getNoteByIndex (getNoteIndex root + (interval : Int))) := by
          cases h; rfl
        have hprops := chord_intervals_props (ty, intervals)
          (lookup_mem _ _ _ hl)
        have hri' : indexOfStr CHROMATIC_SCALE (normalizeNote root) ≠ -1 := by
          simpa [getNoteIndex] using hri
        obtain ⟨i, hie, hget⟩ := indexOfStr_found _ _ hri'
        have hilt : i < 12 := by
          have := (List.get?_eq_some.mp hget).1
          simpa [CHROMATIC_SCALE] using this
        refine ⟨root, ty, intervals, hp, hl, ?_, hprops.1, ?_, hprops.2⟩
        · simp [hnotes]
        · obtain ⟨i0, irest, hint⟩ :
              ∃ i0 irest, intervals = i0 :: irest := by
            cases intervals with
            | nil => simp at hprops
            | cons a l => exact ⟨a, l, rfl⟩
          have h00 : i0 = 0 := by
            rw [hint] at hprops
            simpa using hprops.1
          rw [hnotes, hint, h00]
          simp only [List.map_cons, List.head?_cons, Option.some.injEq]
          have hgi : getNoteIndex root = (i : Int) := by
            rw [getNoteIndex, hie]
          rw [hgi]
          norm_num [getNoteByIndex_at i hilt]
          rw [List.get?_eq_getElem?] at hget
          rw [hget]
          rfl

theorem parseChordName_cases (s : String) :
    (specRootTokenMatches s = false
        ∧ parseChordName s = Except.error ParseError.invalidFormat)
      ∨ (specRootTokenMatches s = true
        ∧ ∃ root ty, parseChordName s = Except.ok (root, ty)) := by
  unfold parseChordName specRootTokenMatches
  cases (normalizeChordInput s).toList with
  | nil => exact Or.inl ⟨rfl, rfl⟩
  | cons c rest =>
      by_cases hc : 'A' ≤ c ∧ c ≤ 'G'
      · refine Or.inr ⟨by simp [hc], ?_⟩
        cases rest with
        | nil =>
            dsimp only
            rw [if_pos hc]
            exact ⟨_, _, rfl⟩
        | cons c2 r2 =>
            dsimp only
            rw [if_pos hc]
            by_cases h2 : c2 == '#' || c2 == 'b'
            · rw [if_pos h2]
              exact ⟨_, _, rfl⟩
            · rw [if_neg h2]
              exact ⟨_, _, rfl⟩
      · refine Or.inl ⟨by simp [hc], ?_⟩
        dsimp only
        rw [if_neg hc]

/-- C6 counterexample: on the input "Cb" the leading note token does match
the pattern (a letter A–G followed by b) and the empty quality suffix has a
table entry, yet `parseChord` fails — and it fails with the unknown-note
(root) error, not the format error or the quality error the claim says are
the only failure modes and when they occur. -/
theorem C6_counterexample :
    specRootTokenMatches "Cb" = true
      ∧ (CHORD_INTERVALS.lookup "").isSome = true
      ∧ parseChord "Cb" = Except.error ParseError.unknownNote
      ∧ parseChord "Cb" ≠ Except.error ParseError.invalidFormat
      ∧ parseChord "Cb" ≠ Except.error ParseError.unsupportedType := by
  have hcb : parseChord "Cb" = Except.error ParseError.unknownNote := by rfl
  refine ⟨by decide, by decide, hcb, ?_, ?_⟩
  · intro h; rw [hcb] at h; simp at h
  · intro h; rw [hcb] at h; simp at h

/-- C6 (amended): `parseChord` fails with the format error ("Неверный формат
аккорда") exactly when the leading note token is not a letter A–G optionally
followed by # or b; when the token matches, it fails with the
unsupported-quality error exactly when the suffix has no `CHORD_INTERVALS`
entry, and additionally fails with the unknown-note error exactly when the
suffix is supported but the normalized root is missing from the chromatic
scale (the un-aliased roots "Cb" and "Fb"); the parser is a pure function,
so no state is modified on failure. -/
theorem C6_amended (s : String) :
    (parseChord s = Except.error ParseError.invalidFormat
        ↔ specRootTokenMatches s = false)
      ∧ (parseChord s = Except.error ParseError.unsupportedType
        ↔ ∃ root ty, parseChordName s = Except.ok (root, ty)
            ∧ CHORD_INTERVALS.lookup ty = none)
      ∧ (parseChord s = Except.error ParseError.unknownNote
        ↔ ∃ root ty intervals, parseChordName s = Except.ok (root, ty)
            ∧ CHORD_INTERVALS.lookup ty = some intervals
            ∧ getNoteIndex root = -1) := by
  rcases parseChordName_cases s with ⟨hspec, hp⟩ | ⟨hspec, root, ty, hp⟩
  · have hfail : parseChord s = Except.error ParseError.invalidFormat := by
      unfold parseChord
      rw [hp]
    refine ⟨by simp [hfail, hspec], ?_, ?_⟩
    · rw [hfail]
      constructor
      · intro h; simp at h
      · rintro ⟨root, ty, hok, -⟩
        rw [hp] at hok; simp at hok
    · rw [hfail]
      constructor
      · intro h; simp at h
      · rintro ⟨root, ty, intervals, hok, -, -⟩
        rw [hp] at hok; simp at hok
  · cases hl : CHORD_INTERVALS.lookup ty with
    | none =>
        have hfail : parseChord s = Except.error ParseError.unsupportedType := by
          unfold parseChord
          rw [hp]
          dsimp only
          rw [hl]
        refine ⟨by simp [hfail, hspec], ?_, ?_⟩
        · rw [hfail]
          constructor
          · intro _; exact ⟨root, ty, hp, hl⟩
          · intro _; rfl
        · rw [hfail]
          constructor
          · intro h; simp at h
          · rintro ⟨root', ty', intervals, hok, hl', -⟩
            rw [hp] at hok
            simp only [Except.ok.injEq, Prod.mk.injEq] at hok
            rw [← hok.2, hl] at hl'
            simp at hl'
    | some intervals =>
        by_cases hri : getNoteIndex root == -1
        · have hfail : parseChord s = Except.error ParseError.unknownNote := by
            unfold parseChord
            rw [hp]
            dsimp only
            rw [hl]
            dsimp only
            rw [if_pos hri]
          refine ⟨by simp [hfail, hspec], ?_, ?_⟩
          · rw [hfail]
            constructor
            · intro h; simp at h
            · rintro ⟨root', ty', hok, hl'⟩
              rw [hp] at hok
              simp only [Except.ok.injEq, Prod.mk.injEq] at hok
              rw [← hok.2, hl] at hl'
              simp at hl'
          · rw [hfail]
            constructor
            · intro _
              exact ⟨root, ty, intervals, hp, hl, by simpa using hri⟩
            · intro _; rfl
        · have hok : parseChord s = Except.ok (intervals.map
              (fun (interval : Nat) =>
                getNoteByIndex (getNoteIndex root + (interval : Int)))) := by
            unfold parseChord
            rw [hp]
            dsimp only
            rw [hl]
            dsimp only
            rw [if_neg hri]
          refine ⟨by simp [hok, hspec], ?_, ?_⟩
          · rw [hok]
            constructor
            · intro h; simp at h
            · rintro ⟨root', ty', hok', hl'⟩
              rw [hp] at hok'
              simp only [Except.ok.injEq, Prod.mk.injEq] at hok'
              rw [← hok'.2, hl] at hl'
              simp at hl'
          · rw [hok]
            constructor
            · intro h; simp at h
            · rintro ⟨root', ty', intervals', hok', -, hri'⟩
              rw [hp] at hok'
              simp only [Except.ok.injEq, Prod.mk.injEq] at hok'
              rw [← hok'.1] at hri'
              exact absurd (by simp [hri'] : (getNoteIndex root == -1) = true) hri

theorem le_foldl_max (l : List Int) : ∀ (a x : Int), x = a ∨ x ∈ l →
    x ≤ l.foldl max a := by
  induction l with
  | nil => rintro a x (rfl | h) <;> simp_all
  | cons b l ih =>
      rintro a x (rfl | h)
      · calc x ≤ max x b := le_max_left _ _
          _ ≤ l.foldl max (max x b) := ih _ _ (Or.inl rfl)
      · rcases List.mem_cons.mp h with rfl | h2
        · calc x ≤ max a x := le_max_right _ _
            _ ≤ l.foldl max (max a x) := ih _ _ (Or.inl rfl)
        · exact ih _ _ (Or.inr h2)

theorem foldl_min_le (l : List Int) : ∀ (a x : Int), x = a ∨ x ∈ l →
    l.foldl min a ≤ x := by
  induction l with
  | nil => rintro a x (rfl | h) <;> simp_all
  | cons b l ih =>
      rintro a x (rfl | h)
      · calc l.foldl min (min x b) ≤ min x b := ih _ _ (Or.inl rfl)
          _ ≤ x := min_le_left _ _
      · rcases List.mem_cons.mp h with rfl | h2
        · calc l.foldl min (min a x) ≤ min a x := ih _ _ (Or.inl rfl)
            _ ≤ x := min_le_right _ _
        · exact ih _ _ (Or.inr h2)

theorem calculateFretRange_bounds (fingering : List Pos) (p q : Pos)
    (hp : p ∈ fingering) (hq : q ∈ fingering)
    (hp0 : 0 ≤ p.fret) (hq0 : 0 ≤ q.fret) :
    p.fret - q.fret ≤ calculateFretRange fingering := by
  have hpa : p.fret ∈ activeFrets fingering := by
    unfold activeFrets
    exact List.mem_map_of_mem _ (List.mem_filter.mpr ⟨hp, by simpa using hp0⟩)
  have hqa : q.fret ∈ activeFrets fingering := by
    unfold activeFrets
    exact List.mem_map_of_mem _ (List.mem_filter.mpr ⟨hq, by simpa using hq0⟩)
  unfold calculateFretRange
  cases hl : activeFrets fingering with
  | nil => rw [hl] at hpa; simp at hpa
  | cons f fs =>
      rw [hl] at hpa hqa
      have h1 : p.fret ≤ fs.foldl max f :=
        le_foldl_max fs f _ (List.mem_cons.mp hpa)
      have h2 : fs.foldl min f ≤ q.fret :=
        foldl_min_le fs f _ (List.mem_cons.mp hqa)
      dsimp only
      omega

theorem calculateFretRange_all_muted (fingering : List Pos)
    (h : ∀ p ∈ fingering, p.fret < 0) : calculateFretRange fingering = 0 := by
  have : activeFrets fingering = [] := by
    unfold activeFrets
    rw [List.map_eq_nil_iff, List.filter_eq_nil_iff]
    intro p hp
    simpa using not_le.mpr (h p hp)
  unfold calculateFretRange
  rw [this]

theorem barreLoop_ne_one (activePositions : List Pos) (frets : List Int) :
    barreLoop activePositions frets ≠ 1 := by
  induction frets with
  | nil => simp [barreLoop]
  | cons fret rest ih =>
      unfold barreLoop
      by_cases hg : 1 < (activePositions.filter (fun pos => pos.fret == fret)).length
      · rw [if_pos hg]
        by_cases hadj : adjacentChain (stableSortBy
            (fun a b => stringIndexOf a.string ≤ stringIndexOf b.string)
            (activePositions.filter (fun pos => pos.fret == fret)))
        · rw [if_pos hadj]; omega
        · rw [if_neg hadj]; exact ih
      · rw [if_neg hg]; exact ih

theorem calculateBarreRequirement_ne_one (fingering : List Pos) :
    calculateBarreRequirement fingering ≠ 1 := by
  unfold calculateBarreRequirement
  by_cases h : (fingering.filter (fun pos => 0 < pos.fret)).length < 2
  · rw [if_pos h]; omega
  · rw [if_neg h]; exact barreLoop_ne_one _ _

/-- C4 counterexample: on the open C shape played against chord name "C",
the source's score is −1 while the claim's formula gives 1 — the source's
`calculateFretRange` filters `fret >= 0`, so the open strings (fret 0) enter
the span (3 − 0 = 3), where the claim's span over non-open strings is
3 − 1 = 2.  And `calculateBarreRequirement` is not the claimed 0/1
indicator: two adjacent strings at fret 1 yield 2 (the group size), while a
fret-1 group {6E, 5A, 3G} with a gap yields 0 even though 6E and 5A are
adjacent and share fret 1 > 0, where the claim says 1. -/
theorem C4_counterexample :
    calculateScore cShapeFingering "C" = -1
      ∧ specScore cShapeFingering "C" = 1
      ∧ calculateScore cShapeFingering "C" ≠ specScore cShapeFingering "C"
      ∧ calculateBarreRequirement barrePairFingering = 2
      ∧ specBarreFlag barrePairFingering = 1
      ∧ calculateBarreRequirement barreGapFingering = 0
      ∧ specBarreFlag barreGapFingering = 1 := by
  have hr : calculateFretRange cShapeFingering = 3 := by decide
  have ho : countOpenStrings cShapeFingering = 2 := by decide
  have hb : calculateBarreRequirement cShapeFingering = 0 := by decide
  have hlk : STANDARD_CHORDS.lookup (baseChordName "C") = some cShapeFingering := by
    decide
  have hmt : stdMatchCounts cShapeFingering cShapeFingering = (5, 5) := by decide
  have hstd : calculateStandardChordMatch cShapeFingering "C" = 1 := by
    unfold calculateStandardChordMatch
    rw [hlk]
    dsimp only
    rw [hmt]
    norm_num
  have hscore : calculateScore cShapeFingering "C" = -1 := by
    unfold calculateScore
    rw [hr, ho, hb, hstd]
    norm_num [SCORE_WEIGHTS]
  have hsr : specFretSpan cShapeFingering = 2 := by decide
  have hsb : specBarreFlag cShapeFingering = 0 := by decide
  have hspec : specScore cShapeFingering "C" = 1 := by
    unfold specScore
    rw [hsr, ho, hsb, hstd]
    norm_num [SCORE_WEIGHTS]
  refine ⟨hscore, hspec, ?_, by decide, by decide, by decide, by decide⟩
  rw [hscore, hspec]
  norm_num

/-- C4 (amended): the score is the fixed weighted sum
−2·fretRange + 1.5·openStrings − 1·barreRequirement + 2·standardMatch, with
the span and barre weights negative and the open-string and standard-match
weights positive; but `fretRange` is max − min over ALL non-muted strings,
open strings included (it bounds every difference of non-muted frets and is
0 when every string is muted), and the barre term is not a 0/1 flag: it is
the size of the first contiguous same-fret group (0 or at least 2, never
1). -/
theorem C4_amended (fingering : List Pos) (chordName : String) :
    calculateScore fingering chordName
        = (-2) * (calculateFretRange fingering : ℚ)
          + (3 / 2) * (countOpenStrings fingering : ℚ)
          + (-1) * (calculateBarreRequirement fingering : ℚ)
          + 2 * calculateStandardChordMatch fingering chordName
      ∧ SCORE_WEIGHTS.fretRange < 0 ∧ SCORE_WEIGHTS.barreChords < 0
      ∧ 0 < SCORE_WEIGHTS.openStrings ∧ 0 < SCORE_WEIGHTS.standardChords
      ∧ (∀ p ∈ fingering, ∀ q ∈ fingering, 0 ≤ p.fret → 0 ≤ q.fret →
          p.fret - q.fret ≤ calculateFretRange fingering)
      ∧ ((∀ p ∈ fingering, p.fret < 0) → calculateFretRange fingering = 0)
      ∧ calculateBarreRequirement fingering ≠ 1 := by
  refine ⟨rfl, by norm_num [SCORE_WEIGHTS], by norm_num [SCORE_WEIGHTS],
    by norm_num [SCORE_WEIGHTS], by norm_num [SCORE_WEIGHTS], ?_, ?_, ?_⟩
  · intro p hp q hq hp0 hq0
    exact calculateFretRange_bounds fingering p q hp hq hp0 hq0
  · exact calculateFretRange_all_muted fingering
  · exact calculateBarreRequirement_ne_one fingering

theorem lowestRootFold_min (rootNote : String) :
    ∀ (l : List (String × Nat × String)) (acc : Option (Pos × Nat))
      (pm' : Pos × Nat),
    l.foldl (lowestRootStep rootNote) acc = some pm' →
    (∀ pm, acc = some pm → pm'.2 ≤ pm.2)
      ∧ (∀ e ∈ l, extractNoteName e.2.2 = rootNote →
          ∀ me, calculateMidiNumber e.2.2 = some me → pm'.2 ≤ me) := by
  intro l
  induction l with
  | nil =>
      intro acc pm' h
      refine ⟨?_, by simp⟩
      intro pm hpm
      rw [hpm] at h
      simp at h
      rw [h]
  | cons e l ih =>
      intro acc pm' h
      rw [List.foldl_cons] at h
      obtain ⟨ha, hl⟩ := ih (lowestRootStep rootNote acc e) pm' h
      constructor
      · intro pm hpm
        subst hpm
        by_cases hname : extractNoteName e.2.2 == rootNote
        · cases hmidi : calculateMidiNumber e.2.2 with
          | none => exact ha pm (by simp [lowestRootStep, hname, hmidi])
          | some m =>
              by_cases hlt : m < pm.2
              · have := ha (⟨e.1, (e.2.1 : Int), some (extractNoteName e.2.2)⟩, m)
                  (by simp [lowestRootStep, hname, hmidi, hlt])
                omega
              · exact ha pm (by simp [lowestRootStep, hname, hmidi, hlt])
        · have hname' : (extractNoteName e.2.2 == rootNote) = false := by
            simpa using hname
          exact ha pm (by simp [lowestRootStep, hname'])
      · intro e' he' hroot me hme
        rcases List.mem_cons.mp he' with rfl | hmem
        · have hname : (extractNoteName e'.2.2 == rootNote) = true := by
            simpa using hroot
          cases acc with
          | none =>
              exact ha (⟨e'.1, (e'.2.1 : Int), some (extractNoteName e'.2.2)⟩, me)
                (by simp [lowestRootStep, hname, hme])
          | some best =>
              by_cases hlt : me < best.2
              · exact ha (⟨e'.1, (e'.2.1 : Int), some (extractNoteName e'.2.2)⟩, me)
                  (by simp [lowestRootStep, hname, hme, hlt])
              · have h2 := ha best (by simp [lowestRootStep, hname, hme, hlt])
                omega
        · exact hl e' hmem hroot me hme

theorem lowestRootFold_cand (rootNote : String) :
    ∀ (l : List (String × Nat × String)) (acc : Option (Pos × Nat)),
    (∀ e ∈ l, nwoAt e.1 e.2.1 = some e.2.2) →
    (∀ pm, acc = some pm → IsLowestCand rootNote pm) →
    ∀ pm', l.foldl (lowestRootStep rootNote) acc = some pm' →
      IsLowestCand rootNote pm' := by
  intro l
  induction l with
  | nil =>
      intro acc _ hacc pm' h
      simp at h
      exact hacc pm' h
  | cons e l ih =>
      intro acc hnwo hacc pm' h
      rw [List.foldl_cons] at h
      refine ih _ (fun e2 he2 => hnwo e2 (List.mem_cons_of_mem _ he2)) ?_ pm' h
      intro pm hpm
      by_cases hname : extractNoteName e.2.2 == rootNote
      · have hroot : extractNoteName e.2.2 = rootNote := by simpa using hname
        cases hmidi : calculateMidiNumber e.2.2 with
        | none =>
            rw [show lowestRootStep rootNote acc e = acc by
              simp [lowestRootStep, hname, hmidi]] at hpm
            exact hacc pm hpm
        | some m =>
            have hcand : IsLowestCand rootNote
                (⟨e.1, (e.2.1 : Int), some (extractNoteName e.2.2)⟩, m) := by
              refine ⟨e.2.1, rfl, e.2.2,
                hnwo e (List.mem_cons_self _ _), hroot, by rw [hroot], hmidi⟩
            cases acc with
            | none =>
                rw [show lowestRootStep rootNote none e
                    = some (⟨e.1, (e.2.1 : Int), some (extractNoteName e.2.2)⟩, m) by
                  simp [lowestRootStep, hname, hmidi]] at hpm
                simp only [Option.some.injEq] at hpm
                rw [← hpm]
                exact hcand
            | some best =>
                by_cases hlt : m < best.2
                · rw [show lowestRootStep rootNote (some best) e
                      = some (⟨e.1, (e.2.1 : Int), some (extractNoteName e.2.2)⟩, m) by
                    simp [lowestRootStep, hname, hmidi, hlt]] at hpm
                  simp only [Option.some.injEq] at hpm
                  rw [← hpm]
                  exact hcand
                · rw [show lowestRootStep rootNote (some best) e = some best by
                    simp [lowestRootStep, hname, hmidi, hlt]] at hpm
                  exact hacc pm hpm
      · have hname' : (extractNoteName e.2.2 == rootNote) = false := by
          simpa using hname
        rw [show lowestRootStep rootNote acc e = acc by
          simp [lowestRootStep, hname']] at hpm
        exact hacc pm hpm

theorem latticeEntries_nwoAt : ∀ e ∈ latticeEntries, nwoAt e.1 e.2.1 = some e.2.2 := by
  decide

/-- C3 counterexample: for the root A# (no open-string occurrence) the
resolver's anchor is string 6E, fret 6 — even though the root does occur in
the claimed bounded window (lowest three strings, frets 0–4: string 5A at
fret 1), and fret 6 lies outside that window. The claimed phase (2) does not
exist in the code: `findLowestRootNote` scans the whole lattice directly. -/
theorem C3_counterexample :
    rootAnchor "A#" = some ⟨"6E", 6, some "A#"⟩
      ∧ specLowWindowHasRoot "A#" = true
      ∧ noteNameAt "5A" 1 = some "A#"
      ∧ ¬((6 : Int) ≤ 4) := by
  refine ⟨by decide, by decide, by decide, by decide⟩

/-- C3 (amended): the root anchor resolver has two phases, not three. (1) If
any string's fret 0 carries the root, the anchor is that open position
(fret 0) — so a root present on an open string always anchors at fret 0;
(2) otherwise the anchor is the occurrence of the root with the lowest MIDI
number over the whole lattice (all six strings, frets 0–7; earlier finds in
scan order win ties). There is no pass restricted to the lowest three
strings and frets 0–4. -/
theorem C3_amended (rootNote : String) :
    ((∃ s ∈ STRINGS_ORDER, noteNameAt s 0 = some rootNote) →
        ∃ s, rootAnchor rootNote = some ⟨s, 0, some rootNote⟩
          ∧ noteNameAt s 0 = some rootNote)
      ∧ ((∀ s ∈ STRINGS_ORDER, ¬ noteNameAt s 0 = some rootNote) →
        rootAnchor rootNote = findLowestRootNote rootNote)
      ∧ (∀ pm' : Pos × Nat,
          latticeEntries.foldl (lowestRootStep rootNote) none = some pm' →
          findLowestRootNote rootNote = some pm'.1
            ∧ (∃ fr : Nat, pm'.1.fret = (fr : Int)
                ∧ noteNameAt pm'.1.string fr = some rootNote
                ∧ pm'.1.note = some rootNote)
            ∧ ∀ e ∈ latticeEntries, extractNoteName e.2.2 = rootNote →
                ∀ me, calculateMidiNumber e.2.2 = some me → pm'.2 ≤ me) := by
  refine ⟨?_, ?_, ?_⟩
  · rintro ⟨s, hs, hopen⟩
    have hne : findRootNoteOnOpenString rootNote ≠ none := by
      unfold findRootNoteOnOpenString
      intro hcontra
      rw [List.findSome?_eq_none_iff] at hcontra
      have := hcontra s hs
      rw [hopen] at this
      simp at this
    cases hfind : findRootNoteOnOpenString rootNote with
    | none => exact absurd hfind hne
    | some p =>
        obtain ⟨s', hs', hp⟩ := List.exists_of_findSome?_eq_some hfind
        have hp2 : noteNameAt s' 0 = some rootNote ∧ p = ⟨s', 0, some rootNote⟩ := by
          cases hn : noteNameAt s' 0 with
          | none => rw [hn] at hp; simp at hp
          | some noteName =>
              rw [hn] at hp
              dsimp only at hp
              by_cases heq : noteName == rootNote
              · have heq' : noteName = rootNote := by simpa using heq
                rw [if_pos heq] at hp
                simp only [Option.some.injEq] at hp
                exact ⟨by rw [heq'], by rw [← hp, heq']⟩
              · rw [if_neg heq] at hp; simp at hp
        refine ⟨s', ?_, hp2.1⟩
        unfold rootAnchor
        rw [hfind, hp2.2]
  · intro hall
    have hnone : findRootNoteOnOpenString rootNote = none := by
      unfold findRootNoteOnOpenString
      rw [List.findSome?_eq_none_iff]
      intro s hs
      cases hn : noteNameAt s 0 with
      | none => rfl
      | some noteName =>
          have : (noteName == rootNote) = false := by
            have := hall s hs
            rw [hn] at this
            simpa using fun h => this (by rw [h])
          simp [this]
    unfold rootAnchor
    rw [hnone]
  · intro pm' hfold
    have hcand := lowestRootFold_cand rootNote latticeEntries none
      latticeEntries_nwoAt (by simp) pm' hfold
    obtain ⟨fr, hfr, nwo, hnwo, hname, hnote, hmidi⟩ := hcand
    have hmin := (lowestRootFold_min rootNote latticeEntries none pm' hfold).2
    refine ⟨?_, ⟨fr, hfr, ?_, hnote⟩, hmin⟩
    · unfold findLowestRootNote
      rw [hfold]
      rfl
    · unfold noteNameAt
      rw [hnwo]
      simp [hname]

theorem orElse_fun_eq_or {α : Type} (a b : Option α) :
    (a.orElse fun _ => b) = a.or b := by
  cases a <;> rfl

theorem fretHit_some (string targetNote : String) (fret : Nat) (p : Pos)
    (h : fretHit string targetNote fret = some p) :
    p = ⟨string, (fret : Int), some targetNote⟩
      ∧ noteNameAt string fret = some targetNote := by
  unfold fretHit at h
  cases hn : noteNameAt string fret with
  | none => rw [hn] at h; simp at h
  | some noteName =>
      rw [hn] at h
      dsimp only at h
      by_cases heq : noteName == targetNote
      · have heq' : noteName = targetNote := by simpa using heq
        rw [if_pos heq] at h
        simp only [Option.some.injEq] at h
        exact ⟨by rw [← h, heq'], by rw [heq']⟩
      · rw [if_neg heq] at h; simp at h

theorem windowFrets_eq_specWindowFrets (rootFret : Int) :
    windowFrets rootFret = specWindowFrets rootFret := by
  unfold windowFrets specWindowFrets
  apply List.filter_congr
  intro fret hfret
  have h8 : fret < 8 := List.mem_range.mp hfret
  have h7 : (fret : Int) ≤ 7 := by exact_mod_cast Nat.lt_succ_iff.mp h8
  have h0 : (0 : Int) ≤ (fret : Int) := Int.ofNat_nonneg fret
  simp only [decide_eq_decide]
  omega

theorem findPositionOnString_some (string targetNote : String) (rootFret : Int)
    (p : Pos) (h : findPositionOnString string targetNote rootFret = some p) :
    ∃ fr : Nat, p = ⟨string, (fr : Int), some targetNote⟩
      ∧ noteNameAt string fr = some targetNote := by
  unfold findPositionOnString at h
  rw [orElse_fun_eq_or, orElse_fun_eq_or, orElse_fun_eq_or] at h
  cases h0 : fretHit string targetNote 0 with
  | some q =>
      rw [h0] at h
      simp only [Option.or] at h
      obtain ⟨hq, hn⟩ := fretHit_some string targetNote 0 q h0
      have hpq : q = p := by simpa using h
      exact ⟨0, by rw [← hpq, hq], hn⟩
  | none =>
      rw [h0] at h
      simp only [Option.none_or] at h
      cases hw : (windowFrets rootFret).findSome? (fretHit string targetNote) with
      | some q =>
          rw [hw] at h
          simp only [Option.or] at h
          obtain ⟨fr, hfr, hq⟩ := List.exists_of_findSome?_eq_some hw
          obtain ⟨hq2, hn⟩ := fretHit_some string targetNote fr q hq
          have hpq : q = p := by simpa using h
          exact ⟨fr, by rw [← hpq, hq2], hn⟩
      | none =>
          rw [hw] at h
          simp only [Option.none_or] at h
          obtain ⟨fr, hfr, hq⟩ := List.exists_of_findSome?_eq_some h
          obtain ⟨hq2, hn⟩ := fretHit_some string targetNote fr _ hq
          exact ⟨fr, hq2, hn⟩

/-- C8: for every (string, degree) pair of a selected template,
`buildChordFromRoot` searches the string for the target pitch class exactly
in the claimed order — fret 0 first, then the frets within ±2 of the anchor
fret (within the lattice's 0–7 range, fret 0 excluded, lowest first), then
the full range 1–7 (lowest first), first hit winning (the source's redundant
second open-string check changes nothing); a successful search yields the
lattice's note at the found fret, and the string is marked muted (fret −1)
exactly when no chord tone has the required degree or no scanned fret
carries the target. -/
theorem C8_template_string_search (string targetNote rootNote : String)
    (rootFret : Int) (noteDegrees : List (String × Int))
    (chordNotes : List String) (degree : Int) :
    findPositionOnString string targetNote rootFret
        = specFirstHit string targetNote rootFret
      ∧ (∀ p, findPositionOnString string targetNote rootFret = some p →
          ∃ fr : Nat, p = ⟨string, (fr : Int), some targetNote⟩
            ∧ noteNameAt string fr = some targetNote)
      ∧ (resolveStringEntry noteDegrees chordNotes rootNote rootFret
            (string, degree) = ⟨string, -1, none⟩
          ↔ targetNoteFor noteDegrees chordNotes rootNote degree = none
            ∨ ∃ t, targetNoteFor noteDegrees chordNotes rootNote degree = some t
                ∧ findPositionOnString string t rootFret = none) := by
  have hsome : ∀ t p, findPositionOnString string t rootFret = some p →
      ∃ fr : Nat, p = ⟨string, (fr : Int), some t⟩
        ∧ noteNameAt string fr = some t :=
    fun t p h => findPositionOnString_some string t rootFret p h
  refine ⟨?_, hsome targetNote, ?_⟩
  · unfold findPositionOnString specFirstHit specSearchFrets
    rw [orElse_fun_eq_or, orElse_fun_eq_or, orElse_fun_eq_or,
      List.findSome?_cons, List.findSome?_append,
      ← windowFrets_eq_specWindowFrets]
    cases h0 : fretHit string targetNote 0 with
    | some p => rfl
    | none =>
        simp only [Option.none_or]
  · unfold resolveStringEntry
    cases ht : targetNoteFor noteDegrees chordNotes rootNote degree with
    | none => simp
    | some t =>
        dsimp only
        cases hf : findPositionOnString string t rootFret with
        | none => simp [hf]
        | some p =>
            obtain ⟨fr, hp, -⟩ := hsome t p hf
            constructor
            · intro hmut
              rw [hp] at hmut
              have : (fr : Int) = -1 := congrArg Pos.fret hmut
              omega
            · rintro (h1 | ⟨t', ht', hf'⟩)
              · simp at h1
              · simp only [Option.some.injEq] at ht'
                rw [← ht'] at hf'
                rw [hf'] at hf
                simp at hf

theorem latticePositions_valid : ∀ p ∈ latticePositions, ValidEntry p := by
  unfold ValidEntry
  decide

theorem findAllPossiblePositions_valid (chordNotes : List String) (note : String) :
    ∀ p ∈ findAllPossiblePositions chordNotes note, ValidEntry p := by
  intro p hp
  unfold findAllPossiblePositions at hp
  split at hp
  · exact latticePositions_valid p (List.mem_of_mem_filter hp)
  · simp at hp

theorem muted_valid (s : String) : ValidEntry ⟨s, -1, none⟩ := by
  intro h0
  simp at h0

theorem padMap_strings (l : List Pos) :
    (STRINGS_ORDER.map (fun string =>
      match l.find? (fun pos => pos.string == string) with
      | some position => position
      | none => ⟨string, -1, none⟩)).map Pos.string = STRINGS_ORDER := by
  rw [List.map_map]
  have : ∀ s ∈ STRINGS_ORDER,
      (Pos.string ∘ fun string =>
        match l.find? (fun pos => pos.string == string) with
        | some position => position
        | none => ⟨string, -1, none⟩) s = id s := by
    intro s _
    simp only [Function.comp_apply, id]
    cases hfind : l.find? (fun pos => pos.string == s) with
    | some q =>
        have := List.find?_some hfind
        simpa using this
    | none => rfl
  rw [List.map_congr_left this, List.map_id]

theorem createFullFingering_spec (selectedPositions : List Pos)
    (hsel : ∀ p ∈ selectedPositions, ValidEntry p) :
    (createFullFingering selectedPositions).length = 6
      ∧ (∀ p ∈ createFullFingering selectedPositions, ValidEntry p)
      ∧ (createFullFingering selectedPositions).map Pos.string = STRINGS_ORDER := by
  refine ⟨by simp [createFullFingering, STRINGS_ORDER], ?_, padMap_strings _⟩
  intro p hp
  unfold createFullFingering at hp
  obtain ⟨s, hs, hps⟩ := List.mem_map.mp hp
  cases hfind : selectedPositions.find? (fun pos => pos.string == s) with
  | some q =>
      rw [hfind] at hps
      rw [← hps]
      exact hsel q (List.mem_of_find?_eq_some hfind)
  | none =>
      rw [hfind] at hps
      rw [← hps]
      exact muted_valid s

theorem generateCombination_spec (positionsByNote : String → List Pos)
    (hpbn : ∀ n, ∀ p ∈ positionsByNote n, ValidEntry p) :
    ∀ (remainingNotes : List String) (currentCombination : List Pos),
    (∀ p ∈ currentCombination, ValidEntry p) →
    ∀ f ∈ generateCombination positionsByNote remainingNotes currentCombination,
      f.length = 6 ∧ (∀ p ∈ f, ValidEntry p)
        ∧ f.map Pos.string = STRINGS_ORDER := by
  intro remainingNotes
  induction remainingNotes with
  | nil =>
      intro current hcur f hf
      unfold generateCombination at hf
      simp only [List.mem_singleton] at hf
      rw [hf]
      exact createFullFingering_spec current hcur
  | cons note rest ih =>
      intro current hcur f hf
      unfold generateCombination at hf
      obtain ⟨p, hp, hfmem⟩ := List.mem_flatMap.mp hf
      by_cases hused : current.any (fun pos => pos.string == p.string)
      · rw [if_pos hused] at hfmem
        simp at hfmem
      · rw [if_neg hused] at hfmem
        refine ih (current ++ [p]) ?_ f hfmem
        intro q hq
        rcases List.mem_append.mp hq with h1 | h2
        · exact hcur q h1
        · rw [List.mem_singleton.mp h2]
          exact hpbn note p hp

theorem resolveStringEntry_valid (noteDegrees : List (String × Int))
    (chordNotes : List String) (rootNote : String) (rootFret : Int)
    (sd : String × Int) :
    ValidEntry (resolveStringEntry noteDegrees chordNotes rootNote rootFret sd) := by
  unfold resolveStringEntry
  cases ht : targetNoteFor noteDegrees chordNotes rootNote sd.2 with
  | none => exact muted_valid sd.1
  | some t =>
      dsimp only
      cases hf : findPositionOnString sd.1 t rootFret with
      | none => exact muted_valid sd.1
      | some q =>
          obtain ⟨fr, hq, hn⟩ := findPositionOnString_some sd.1 t rootFret q hf
          intro h0
          rw [hq]
          refine ⟨by simp, ?_⟩
          simp only [Int.toNat_ofNat]
          exact hn

theorem resolveStringEntry_string (noteDegrees : List (String × Int))
    (chordNotes : List String) (rootNote : String) (rootFret : Int)
    (sd : String × Int) :
    (resolveStringEntry noteDegrees chordNotes rootNote rootFret sd).string = sd.1 := by
  unfold resolveStringEntry
  cases ht : targetNoteFor noteDegrees chordNotes rootNote sd.2 with
  | none => rfl
  | some t =>
      dsimp only
      cases hf : findPositionOnString sd.1 t rootFret with
      | none => rfl
      | some q =>
          obtain ⟨fr, hq, -⟩ := findPositionOnString_some sd.1 t rootFret q hf
          rw [hq]

theorem padded_fingering_spec (noteDegrees : List (String × Int))
    (chordNotes : List String) (rootNote : String) (rootFret : Int)
    (strings : List String) (degrees : List Int)
    (hslen : strings.length ≤ 6)
    (hdeg : degrees.length = strings.length)
    (h6 : strings.length = 6 → strings = STRINGS_ORDER) :
    ∃ f, (if ((strings.zip degrees).map
            (resolveStringEntry noteDegrees chordNotes rootNote rootFret)).length < 6 then
          some (STRINGS_ORDER.map (fun string =>
            match ((strings.zip degrees).map
                (resolveStringEntry noteDegrees chordNotes rootNote rootFret)).find?
                (fun pos => pos.string == string) with
            | some position => position
            | none => ⟨string, -1, none⟩))
        else some ((strings.zip degrees).map
          (resolveStringEntry noteDegrees chordNotes rootNote rootFret))) = some f
      ∧ f.length = 6 ∧ (∀ p ∈ f, ValidEntry p)
        ∧ f.map Pos.string = STRINGS_ORDER := by
  have hvalid : ∀ p ∈ (strings.zip degrees).map
      (resolveStringEntry noteDegrees chordNotes rootNote rootFret), ValidEntry p := by
    intro p hp
    obtain ⟨sd, _, hsd⟩ := List.mem_map.mp hp
    rw [← hsd]
    exact resolveStringEntry_valid _ _ _ _ sd
  by_cases hlen : ((strings.zip degrees).map
      (resolveStringEntry noteDegrees chordNotes rootNote rootFret)).length < 6
  · rw [if_pos hlen]
    refine ⟨_, rfl, by simp [STRINGS_ORDER], ?_, padMap_strings _⟩
    intro p hp
    obtain ⟨s, hs, hps⟩ := List.mem_map.mp hp
    cases hfind : ((strings.zip degrees).map
        (resolveStringEntry noteDegrees chordNotes rootNote rootFret)).find?
        (fun pos => pos.string == s) with
    | some q =>
        rw [hfind] at hps
        rw [← hps]
        exact hvalid q (List.mem_of_find?_eq_some hfind)
    | none =>
        rw [hfind] at hps
        rw [← hps]
        exact muted_valid s
  · rw [if_neg hlen]
    have hzlen : ((strings.zip degrees).map
        (resolveStringEntry noteDegrees chordNotes rootNote rootFret)).length
          = strings.length := by
      rw [List.length_map, List.length_zip, hdeg, min_self]
    have hs6 : strings.length = 6 := by omega
    refine ⟨_, rfl, by omega, hvalid, ?_⟩
    rw [List.map_map]
    have heq : ∀ sd ∈ strings.zip degrees,
        (Pos.string ∘ resolveStringEntry noteDegrees chordNotes rootNote rootFret) sd
          = Prod.fst sd := by
      intro sd _
      exact resolveStringEntry_string _ _ _ _ sd
    rw [List.map_congr_left heq, List.map_fst_zip _ _ (by omega), h6 hs6]

theorem buildChordFromRoot_spec (rootNote : String) (chordNotes : List String)
    (rootPosition : Pos) (chordName : String) :
    ∃ f, buildChordFromRoot rootNote chordNotes rootPosition chordName = some f
      ∧ f.length = 6 ∧ (∀ p ∈ f, ValidEntry p)
        ∧ f.map Pos.string = STRINGS_ORDER := by
  have hstrlen : (chordShapeFor rootPosition.string).1.length ≤ 6 := by
    unfold chordShapeFor
    split_ifs <;> simp [STRINGS_ORDER]
  have hshape6 : (chordShapeFor rootPosition.string).1.length = 6 →
      (chordShapeFor rootPosition.string).1 = STRINGS_ORDER := by
    unfold chordShapeFor
    split_ifs <;> simp [STRINGS_ORDER]
  have hshape2 : (chordShapeFor rootPosition.string).2.length
      = (chordShapeFor rootPosition.string).1.length := by
    unfold chordShapeFor
    split_ifs <;> simp [STRINGS_ORDER]
  have hdeg : (if (!(! (strIncludes chordName "m" || strIncludes chordName "min"
          || strIncludes chordName "-"))) = true
        ∧ (chordShapeFor rootPosition.string).2.contains 3 = true then
      (chordShapeFor rootPosition.string).2.map (fun d => if d == 3 then 3 else d)
    else (chordShapeFor rootPosition.string).2).length
      = (chordShapeFor rootPosition.string).1.length := by
    split_ifs <;> simp [hshape2]
  unfold buildChordFromRoot
  dsimp only
  exact padded_fingering_spec (determineNoteDegrees chordNotes rootNote) chordNotes
    rootNote rootPosition.fret (chordShapeFor rootPosition.string).1 _
    hstrlen hdeg hshape6

/-- C1: every fingering the resolver produces — any output of the fallback
generator `generateAllCombinations` run on the position dictionary
`findAllPossiblePositions` builds (each via `createFullFingering`), and the
fingering `buildChordFromRoot` returns for any inputs — has exactly six
entries, one per string in low-to-high order (`STRINGS_ORDER`), and every
non-muted entry (fret ≥ 0) carries exactly the pitch-class name the static
lattice `NOTES_DATA` assigns to its (string, fret). -/
theorem C1_fingering_invariants (chordNotes : List String)
    (rootNote chordName : String) (rootPosition : Pos) :
    (∀ f ∈ generateAllCombinations (findAllPossiblePositions chordNotes) chordNotes,
        f.length = 6 ∧ (∀ p ∈ f, ValidEntry p)
          ∧ f.map Pos.string = STRINGS_ORDER)
      ∧ (∀ f, buildChordFromRoot rootNote chordNotes rootPosition chordName = some f →
        f.length = 6 ∧ (∀ p ∈ f, ValidEntry p)
          ∧ f.map Pos.string = STRINGS_ORDER) := by
  constructor
  · intro f hf
    exact generateCombination_spec (findAllPossiblePositions chordNotes)
      (findAllPossiblePositions_valid chordNotes) chordNotes [] (by simp) f hf
  · intro f hf
    obtain ⟨f2, hf2, hprops⟩ :=
      buildChordFromRoot_spec rootNote chordNotes rootPosition chordName
    rw [hf2] at hf
    simp only [Option.some.injEq] at hf
    rw [← hf]
    exact hprops

/-- C2 counterexample: with the anchor on string 2B — outside the three
lowest strings — the template builder still returns a fingering, not null
(its final else-branch installs a generic six-string template); and the
symbol "Bbm" (notes A#, C#, F) is resolved through that template path:
`findOptimalFingering` returns the early single-candidate result
(`totalCombinations = 1`), never invoking the combinatorial fallback. -/
theorem C2_counterexample :
    (buildChordFromRoot "B" ["B", "D#", "F#"] ⟨"2B", 0, some "B"⟩ "B").isSome = true
      ∧ (findOptimalFingering ["A#", "C#", "F"] "Bbm").totalCombinations = 1
      ∧ (findOptimalFingering ["A#", "C#", "F"] "Bbm").topFingerings.length = 1 := by
  refine ⟨by decide, by rfl, by rfl⟩

/-- C2 (amended): `buildChordFromRoot` never returns null — for an anchor
outside the three lowest strings it uses a generic six-string template
instead — so the combinatorial fallback generator in `findOptimalFingering`
is unreachable: every result reports at most one candidate (0 only when the
root is absent from the lattice). In particular "Bbm" (root A#, anchored at
string 6E fret 6) resolves through the template builder with exactly one
candidate. -/
theorem C2_amended (rootNote chordName : String) (chordNotes : List String)
    (rootPosition : Pos) :
    (buildChordFromRoot rootNote chordNotes rootPosition chordName).isSome = true
      ∧ (findOptimalFingering chordNotes chordName).totalCombinations ≤ 1
      ∧ (findOptimalFingering ["A#", "C#", "F"] "Bbm").totalCombinations = 1
      ∧ rootAnchor "A#" = some ⟨"6E", 6, some "A#"⟩ := by
  refine ⟨?_, ?_, by rfl, by decide⟩
  · obtain ⟨f, hf, -⟩ :=
      buildChordFromRoot_spec rootNote chordNotes rootPosition chordName
    rw [hf]
    rfl
  · have hnever : ∀ (a : String) (b : List String) (c : Pos) (d : String),
        buildChordFromRoot a b c d ≠ none := by
      intro a b c d hcon
      obtain ⟨f, hf, -⟩ := buildChordFromRoot_spec a b c d
      rw [hf] at hcon
      exact Option.noConfusion hcon
    unfold findOptimalFingering
    split
    · simp
    · split
      · simp
      · rename_i heq2
        exact absurd heq2 (hnever _ _ _ _)

theorem insertSortedBy_length (le : α → α → Bool) (x : α) (l : List α) :
    (insertSortedBy le x l).length = l.length + 1 := by
  induction l with
  | nil => rfl
  | cons y ys ih =>
      unfold insertSortedBy
      by_cases h : le y x
      · rw [if_pos h]
        simp [ih]
      · rw [if_neg h]
        simp

theorem stableSortBy_length (le : α → α → Bool) (l : List α) :
    (stableSortBy le l).length = l.length := by
  suffices h : ∀ acc : List α,
      (l.foldl (fun acc x => insertSortedBy le x acc) acc).length
        = acc.length + l.length by
    simpa using h []
  induction l with
  | nil => intro acc; simp
  | cons y ys ih =>
      intro acc
      rw [List.foldl_cons, ih, insertSortedBy_length, List.length_cons]
      omega

theorem IsSelectionFrom_shape (positionsByNote : String → List Pos) :
    ∀ (chordNotes : List String) (current sel : List Pos),
    IsSelectionFrom positionsByNote current chordNotes sel →
    sel.length = chordNotes.length
      ∧ (∀ q ∈ sel, ∀ c ∈ current, c.string ≠ q.string)
      ∧ List.Pairwise (fun a b => a.string ≠ b.string) sel := by
  intro chordNotes
  induction chordNotes with
  | nil =>
      intro current sel hsel
      rw [show sel = [] from hsel]
      simp
  | cons note rest ih =>
      intro current sel hsel
      obtain ⟨p, sel2, hseq, hp, hfresh, hrest⟩ := hsel
      obtain ⟨hlen, hcur, hpw⟩ := ih (current ++ [p]) sel2 hrest
      subst hseq
      refine ⟨by simp [hlen], ?_, ?_⟩
      · intro q hq c hc
        rcases List.mem_cons.mp hq with rfl | hq2
        · exact hfresh c hc
        · exact hcur q hq2 c (List.mem_append_left _ hc)
      · rw [List.pairwise_cons]
        refine ⟨?_, hpw⟩
        intro q hq
        exact hcur q hq p (List.mem_append_right _ (List.mem_singleton.mpr rfl))

theorem generateCombination_mem_iff (positionsByNote : String → List Pos) :
    ∀ (remainingNotes : List String) (currentCombination : List Pos) (f : List Pos),
    f ∈ generateCombination positionsByNote remainingNotes currentCombination
      ↔ ∃ sel, IsSelectionFrom positionsByNote currentCombination remainingNotes sel
          ∧ f = createFullFingering (currentCombination ++ sel) := by
  intro remainingNotes
  induction remainingNotes with
  | nil =>
      intro current f
      unfold generateCombination
      simp only [List.mem_singleton]
      constructor
      · intro h
        exact ⟨[], rfl, by simpa using h⟩
      · rintro ⟨sel, hsel, hf⟩
        rw [show sel = [] from hsel] at hf
        simpa using hf
  | cons note rest ih =>
      intro current f
      unfold generateCombination
      rw [List.mem_flatMap]
      constructor
      · rintro ⟨p, hp, hf⟩
        by_cases hused : current.any (fun pos => pos.string == p.string)
        · rw [if_pos hused] at hf
          simp at hf
        · rw [if_neg hused] at hf
          obtain ⟨sel2, hsel2, hfeq⟩ := (ih (current ++ [p]) f).mp hf
          refine ⟨p :: sel2, ⟨p, sel2, rfl, hp, ?_, hsel2⟩, ?_⟩
          · intro q hq
            intro hstr
            exact hused (List.any_eq_true.mpr ⟨q, hq, by simp [hstr]⟩)
          · rw [hfeq, List.append_assoc]
            rfl
      · rintro ⟨sel, ⟨p, sel2, hseq, hp, hfresh, hsel2⟩, hf⟩
        refine ⟨p, hp, ?_⟩
        have hused : ¬ current.any (fun pos => pos.string == p.string) = true := by
          intro hcon
          obtain ⟨q, hq, hqs⟩ := List.any_eq_true.mp hcon
          exact hfresh q hq (by simpa using hqs)
        rw [if_neg hused]
        refine (ih (current ++ [p]) f).mpr ⟨sel2, hsel2, ?_⟩
        rw [hf, hseq, List.append_assoc]
        rfl

/-- C9 counterexample: for the four tones of Cmaj7 (C, E, G, B) the fallback
generator materializes 94 candidate fingerings — more than the cap of 50,
which the source applies only afterwards (`findOptimalFingering` sorts the
full list by fret range and slices to 50); enumeration never stops early. -/
theorem C9_counterexample :
    (generateAllCombinations (findAllPossiblePositions ["C", "E", "G", "B"])
        ["C", "E", "G", "B"]).length = 94
      ∧ 50 < (generateAllCombinations (findAllPossiblePositions ["C", "E", "G", "B"])
        ["C", "E", "G", "B"]).length := by
  have h : (generateAllCombinations (findAllPossiblePositions ["C", "E", "G", "B"])
      ["C", "E", "G", "B"]).length = 94 := by decide
  exact ⟨h, by rw [h]; omega⟩

/-- C9 (amended): the fallback generator assigns one fretboard occurrence
per chord tone with no two tones sharing a string (its outputs are exactly
the completed fingerings of such selections, and every selection is
materialized — enumeration is exhaustive, not first-found); no cap is
applied during generation: at Cmaj7's four tones 94 candidates are built.
The cap of 50 lives in `findOptimalFingering`'s fallback branch, which
sorts the full list by fret span and then truncates: a sort never changes
the length, so the truncated list evaluated afterwards has at most 50
candidates. -/
theorem C9_generation_exhaustive (positionsByNote : String → List Pos)
    (chordNotes : List String) (f : List Pos) (le : List Pos → List Pos → Bool)
    (l : List (List Pos)) :
    (f ∈ generateAllCombinations positionsByNote chordNotes
      ↔ ∃ sel, IsSelectionFrom positionsByNote [] chordNotes sel
          ∧ f = createFullFingering sel)
    ∧ (∀ sel, IsSelectionFrom positionsByNote [] chordNotes sel →
        sel.length = chordNotes.length
          ∧ List.Pairwise (fun a b => a.string ≠ b.string) sel)
    ∧ ((stableSortBy le l).take 50).length = min 50 l.length
    ∧ (generateAllCombinations (findAllPossiblePositions ["C", "E", "G", "B"])
        ["C", "E", "G", "B"]).length = 94 := by
  refine ⟨?_, ?_, ?_, by decide⟩
  · unfold generateAllCombinations
    rw [generateCombination_mem_iff]
    simp
  · intro sel hsel
    obtain ⟨h1, -, h3⟩ := IsSelectionFrom_shape positionsByNote chordNotes [] sel hsel
    exact ⟨h1, h3⟩
  · rw [List.length_take, stableSortBy_length]
